import Mathlib

/-!
# Whistler backend: report ingestion and the upload lifecycle

A shallow embedding of the HTTP handlers of `rest.go`, `upload.go`,
`media_upload.go`, `whistler.go` and `validation.go`, and of the host check of
`appengine/whistler-hosts.go`.

* The relational database is a record of row lists (`DB`); a transaction is the
  list of rows written but not yet committed (`Tx`).
* The flat upload directory `Config.BaseDir` is an association list from file
  name to file content (`Store`).
* Every place where the Go code checks an `err` coming from the environment
  (database, file system, request body) is driven by a fault record, so each
  handler is a deterministic function of request, faults and state.
* The `govalidator` library is not part of the repository; its functions are
  taken as the parameter `Validators`.
-/

namespace Whistler

/-! ## Go values -/

/-- A non-nil Go `error` value. `errNoRows` is `sql.ErrNoRows`. -/
inductive ErrVal where
  | errNoRows
  | other (msg : String)
  deriving DecidableEq, Repr

/-- A Go `error`: `none` is `nil`. -/
abbrev GoError := Option ErrVal

/-- The sentinel of `media_upload.go`: `var NotFound error`. The variable has no
initialiser and no statement of the program assigns it, so its value is the zero
value of an interface, `nil`. -/
def NotFound : GoError := none

/-- A `float64`, kept as its bit pattern; no handler computes with one. -/
abbrev Float64 := Nat

/-- Go `Location` of `rest.go`. -/
structure Location where
  Latitude : Float64 := 0
  Longitude : Float64 := 0
  Altitude : Float64 := 0
  Accuracy : Float64 := 0
  deriving DecidableEq, Repr

/-- Go `Metadata` of `rest.go`. -/
structure Metadata where
  Cells : List String := []
  Wifis : List String := []
  Timestamp : Int := 0
  AmbientTemperature : Float64 := 0
  Light : Float64 := 0
  Location : Location := {}
  deriving DecidableEq, Repr

/-- Go `Evidence` of `rest.go`. -/
structure Evidence where
  UID : String := ""
  ReportID : Int := 0
  Name : String := ""
  State : Int := 0
  Path : String := ""
  Metadata : Metadata := {}
  deriving DecidableEq, Repr

/-- Go `Recipient` of `rest.go`. -/
structure Recipient where
  Title : String := ""
  Email : String := ""
  deriving DecidableEq, Repr

/-- Go `Report` of `rest.go`. `JSON` is a byte slice. -/
structure Report where
  ID : Int := 0
  UID : String := ""
  Title : String := ""
  Location : String := ""
  ContactInformation : String := ""
  Date : Int := 0
  Created : Int := 0
  Public : Bool := false
  Status : Nat := 0
  JSON : List Nat := []
  Evidences : List Evidence := []
  Recipients : List Recipient := []
  deriving DecidableEq, Repr

/-- Go `MediaFile` of `rest.go`. -/
structure MediaFile where
  ID : Int := 0
  UID : String := ""
  FileName : String := ""
  FileExt : String := ""
  Metadata : Metadata := {}
  State : Int := 0
  Created : Int := 0
  deriving DecidableEq, Repr

/-- Go `FormMediaFileRegister` of `rest.go`. -/
structure FormMediaFileRegister where
  Attachments : List MediaFile := []
  deriving DecidableEq, Repr

/-- The members of the JSON object of a report request, as `encoding/json` sees
them: a member that is absent (or `null`) is `none` and leaves the field of the
destination struct as it was. The integers stand for Go's fixed-width ones and
are in range, as the decoder delivers them. -/
structure ReportJSON where
  id : Option Int := none
  uid : Option String := none
  title : Option String := none
  location : Option String := none
  contactInformation : Option String := none
  date : Option Int := none
  created : Option Int := none
  isPublic : Option Bool := none
  status : Option Nat := none
  json : Option (List Nat) := none
  evidences : Option (List Evidence) := none
  recipients : Option (List Recipient) := none
  deriving DecidableEq, Repr

/-- The call `json.Unmarshal(body, report)` once the body has been parsed into
`j`: members present overwrite the fields of `r`, the others are kept. `Status`
is a `uint8`: a number outside `0..255` is a decoding error. -/
def unmarshalReport (j : ReportJSON) (r : Report) : Option Report :=
  if 256 ≤ j.status.getD 0 then none
  else some
    { ID := j.id.getD r.ID
      UID := j.uid.getD r.UID
      Title := j.title.getD r.Title
      Location := j.location.getD r.Location
      ContactInformation := j.contactInformation.getD r.ContactInformation
      Date := j.date.getD r.Date
      Created := j.created.getD r.Created
      Public := j.isPublic.getD r.Public
      Status := j.status.getD r.Status
      JSON := j.json.getD r.JSON
      Evidences := j.evidences.getD r.Evidences
      Recipients := j.recipients.getD r.Recipients }

/-- Go `path.Ext` on the characters of a path, scanned from the end (the list
is the reversed prefix still to scan, `acc` the suffix already passed): the
suffix starting at the last dot of the last slash-separated element, empty when
there is no dot. -/
def pathExtAux : List Char → List Char → List Char
  | [], _ => []
  | c :: rest, acc =>
    if c = '/' then []
    else if c = '.' then c :: acc
    else pathExtAux rest (c :: acc)

/-- Go `path.Ext`. -/
def pathExt (p : String) : String :=
  String.mk (pathExtAux p.toList.reverse [])

/-! ## Validation (`validation.go`) -/

/-- The functions of the `govalidator` library that the handlers call. The
library is not part of the repository. `structX s` is `true` exactly when
`govalidator.ValidateStruct(s)` returns `(true, nil)` for a value of type `X`. -/
structure Validators where
  IsUUID : String → Bool
  structReport : Report → Bool
  structMetadata : Metadata → Bool
  structRegistration : FormMediaFileRegister → Bool
  structMediaFile : MediaFile → Bool

/-- Go `govalidator.IsNull`: the string has length zero. -/
def IsNull (str : String) : Bool := str.isEmpty

/-- One character of the class `[0-9a-zA-Z:, -]`. -/
def cellChar (c : Char) : Bool :=
  c.isDigit || c.isLower || c.isUpper || c = ':' || c = ',' || c = ' ' || c = '-'

/-- The regular expression `rxWhistlerCells`, `^[0-9a-zA-Z:, -]+$`. -/
def rxWhistlerCells (str : String) : Bool :=
  !str.toList.isEmpty && str.toList.all cellChar

/-- The validator registered as `whistlercells`. -/
def whistlercells (str : String) : Bool :=
  if IsNull str then true else rxWhistlerCells str

/-- Go `validateMetadata`: `true` when nothing was written to the response;
on `false` the handler has answered 400. -/
def validateMetadata (V : Validators) (m : Metadata) : Bool :=
  if !V.structMetadata m then false
  else m.Cells.all whistlercells

/-- Go `validateMediafile`. -/
def validateMediafile (V : Validators) (mediaFile : MediaFile) : Bool :=
  if !V.structMediaFile mediaFile then false
  else if !validateMetadata V mediaFile.Metadata then false
  else true

/-! ## Persisted state -/

/-- A row of table `report(uid, created, public, status, json)` with its
auto-increment `id`. -/
structure ReportRow where
  id : Nat
  uid : String
  created : Int
  isPublic : Bool
  status : Nat
  json : List Nat
  deriving DecidableEq, Repr

/-- A row of table `evidence(reportId, uid, fileExt, state)`. -/
structure EvidenceRow where
  reportId : Nat
  uid : String
  fileExt : String
  state : Int
  deriving DecidableEq, Repr

/-- A row of table `media_file`. -/
structure MediaFileRow where
  id : Nat
  uid : String
  fileName : String
  fileExt : String
  metadata : Metadata
  state : Int
  created : Int
  updated : Option Int
  deriving DecidableEq, Repr

/-- The committed contents of the database. Rows are kept in insertion order.
`reportSeq` and `mediaSeq` are the auto-increment counters, which a rollback
does not reset. -/
structure DB where
  report : List ReportRow := []
  evidence : List EvidenceRow := []
  media_file : List MediaFileRow := []
  reportSeq : Nat := 1
  mediaSeq : Nat := 1
  deriving DecidableEq, Repr

/-- The rows written inside an open transaction, not yet visible to readers. -/
structure Tx where
  report : List ReportRow := []
  evidence : List EvidenceRow := []
  deriving DecidableEq, Repr

/-- Modelled from the spec: the unique key of table `evidence`, whose schema is
not in the repository ("duplicate association rows for the same (report,
identifier) pair are never allowed"). -/
def EvidenceRow.sameKey (a b : EvidenceRow) : Bool :=
  a.reportId == b.reportId && a.uid == b.uid

/-- The statement `INSERT IGNORE INTO evidence (...)` inside a transaction: a
row whose key is already present (committed, or written earlier in the same
transaction) is dropped without an error. -/
def Tx.insertIgnoreEvidence (tx : Tx) (db : DB) (row : EvidenceRow) : Tx :=
  if (db.evidence ++ tx.evidence).any (fun r => r.sameKey row) then tx
  else { tx with evidence := tx.evidence ++ [row] }

/-- The effect of `tx.Commit()`: the rows of the transaction become visible. -/
def DB.commit (db : DB) (tx : Tx) : DB :=
  { db with report := db.report ++ tx.report, evidence := db.evidence ++ tx.evidence }

/-- The files of `Config.BaseDir`, by name, with their bytes. -/
abbrev Store := List (String × List Nat)

/-- Go `os.Stat(...).Size()`: `none` when the file does not exist. -/
def Store.size (s : Store) (name : String) : Option Nat :=
  match s with
  | [] => none
  | (n, c) :: rest => if n = name then some c.length else Store.size rest name

/-- The content of a file, `none` when it does not exist. -/
def Store.content (s : Store) (name : String) : Option (List Nat) :=
  match s with
  | [] => none
  | (n, c) :: rest => if n = name then some c else Store.content rest name

/-- A write to a file opened with `O_CREATE|O_APPEND|O_WRONLY`: the file is
created empty when absent and the bytes are added at its end. -/
def Store.append (s : Store) (name : String) (bytes : List Nat) : Store :=
  match s with
  | [] => [(name, bytes)]
  | (n, c) :: rest =>
    if n = name then (n, c ++ bytes) :: rest else (n, c) :: Store.append rest name bytes

/-- The whole persisted state: database and upload directory. -/
structure Sys where
  db : DB := {}
  files : Store := []
  deriving DecidableEq, Repr

/-! ## Responses -/

/-- A JSON response body. -/
inductive Body where
  | report (data : Report)
  | fileInfo (name : String) (size : Nat)
  | mediaFileInfo (uid : String) (size : Nat)
  deriving DecidableEq, Repr

/-- What the client gets. `status c` is `w.WriteHeader(c)` with an empty body;
`json b` is a body written by `json.NewEncoder(w).Encode` without a call of
`WriteHeader`, which `net/http` sends with status 200; `panicked` is a handler
that panicked: `net/http` recovers, logs, and closes the connection without
a response. -/
inductive Response where
  | status (code : Nat)
  | json (b : Body)
  | panicked
  deriving DecidableEq, Repr

/-- The HTTP status of a response, `none` when there is no response. -/
def Response.code : Response → Option Nat
  | .status c => some c
  | .json _ => some 200
  | .panicked => none

/-! ## Reads of the lifecycle tables -/

/-- The query `SELECT reportId, uid, state FROM evidence WHERE uid = ? LIMIT 1`
followed by `row.Scan`: the first row with that uid, `sql.ErrNoRows` when there
is none, another error when the database fails (`fault`). There is no
`ORDER BY`; the first row is taken in insertion order. Uids are compared as
they are: the ones that pass validation are lowercase UUIDs or empty. -/
def queryRowEvidence (fault : Bool) (db : DB) (uid : String) : Except ErrVal EvidenceRow :=
  if fault then .error (.other "query failed")
  else match db.evidence.find? (fun r => r.uid = uid) with
    | none => .error .errNoRows
    | some row => .ok row

/-- Go `getEvidence` of `whistler.go`: the pointer result (`none` is `nil`) and
the error result. -/
def getEvidence (fault : Bool) (db : DB) (uid : String) : Option Evidence × GoError :=
  match queryRowEvidence fault db uid with
  | .error err =>
    if err = .errNoRows then (none, NotFound)
    else (none, some err)
  | .ok row => (some { ReportID := row.reportId, UID := row.uid, State := row.state }, none)

/-- Go `isEvidenceUploded` of `upload.go`. The outer `none` is a panic: the
last line reads `evidence.State` through the pointer, also when it is `nil`. -/
def isEvidenceUploded (fault : Bool) (db : DB) (uid : String) : Option (Bool × GoError) :=
  match getEvidence fault db uid with
  | (evidence, err) =>
    if err ≠ none then
      if err = NotFound then some (false, none)
      else some (false, err)
    else match evidence with
      | none => none
      | some e => some (e.State == 20, none)

/-- The query `SELECT id, uid, state FROM media_file WHERE uid = ?` followed by
`row.Scan`, which reads the first row. -/
def queryRowMediaFile (fault : Bool) (db : DB) (uid : String) : Except ErrVal MediaFileRow :=
  if fault then .error (.other "query failed")
  else match db.media_file.find? (fun r => r.uid = uid) with
    | none => .error .errNoRows
    | some row => .ok row

/-- Go `getMediaFile` of `media_upload.go`. -/
def getMediaFile (fault : Bool) (db : DB) (uid : String) : Option MediaFile × GoError :=
  match queryRowMediaFile fault db uid with
  | .error err =>
    if err = .errNoRows then (none, NotFound)
    else (none, some err)
  | .ok row => (some { ID := row.id, UID := row.uid, State := row.state }, none)

/-- Go `isMediaFileUplodable` of `media_upload.go`; the outer `none` is the
panic of reading `mediaFile.State` through a `nil` pointer. -/
def isMediaFileUplodable (fault : Bool) (db : DB) (uid : String) : Option (Bool × GoError) :=
  match getMediaFile fault db uid with
  | (mediaFile, err) =>
    if err ≠ none then
      if err = NotFound then some (false, none)
      else some (false, err)
    else match mediaFile with
      | none => none
      | some m => some (m.State != 30, none)

/-- The state of the evidence record of `uid` as `getEvidence` reads it: that of
the first row with this uid, `none` when there is no row. -/
def DB.evidenceState (db : DB) (uid : String) : Option Int :=
  (db.evidence.find? (fun r => r.uid = uid)).map (fun r => r.state)

/-- The state of the media file record of `uid` as `getMediaFile` reads it. -/
def DB.mediaState (db : DB) (uid : String) : Option Int :=
  (db.media_file.find? (fun r => r.uid = uid)).map (fun r => r.state)

/-! ## Report creation (`rest.go`) -/

/-- What the environment supplies during one call of `handleCreateReport`: the
fresh `uuid.New().String()`, the clock, and which calls return an error.
`getEvidence i` and `insertEvidence i` are about the i-th evidence of the
request (from 0). `commit = some applied` is a `tx.Commit()` that returns an
error, `applied` telling whether the server had made the rows durable. -/
structure CreateEnv where
  uuid : String := ""
  now : Int := 0
  readBody : Bool := false
  beginTx : Bool := false
  insertReport : Bool := false
  lastInsertId : Bool := false
  getEvidence : Nat → Bool := fun _ => false
  insertEvidence : Nat → Bool := fun _ => false
  commit : Option Bool := none

/-- The environment makes no call fail. -/
def CreateEnv.noFault (env : CreateEnv) : Prop :=
  env.readBody = false ∧ env.beginTx = false ∧ env.insertReport = false ∧
  env.lastInsertId = false ∧ (∀ i, env.getEvidence i = false) ∧
  (∀ i, env.insertEvidence i = false) ∧ env.commit = none

/-- A request body: its bytes and the JSON object they encode, `none` when
`json.Unmarshal` cannot parse them. -/
structure CreateRequest where
  body : List Nat := []
  json : Option ReportJSON := none
  deriving DecidableEq, Repr

/-- How the transaction of a call ended. -/
inductive TxEnd where
  | notBegun
  | leftOpen (tx : Tx)
  | rolledBack (tx : Tx)
  | committed (tx : Tx)
  | commitFailed (tx : Tx)
  deriving DecidableEq, Repr

/-- The result of `handleCreateReport`: the response, the committed database
afterwards, and the fate of the transaction. -/
structure CreateResult where
  resp : Response
  db : DB
  tx : TxEnd
  deriving DecidableEq, Repr

/-- The loop `for _, evidence := range report.Evidences` of
`handleCreateReport` (lines 174 to 201), from the i-th evidence on. The flag
is `false` when an iteration called `tx.Rollback()` and answered 500.
`getEvidence` reads through `DB`, not through `tx`: it sees committed rows. -/
def evidenceLoop (env : CreateEnv) (db : DB) (reportID : Nat) :
    List Evidence → Nat → Tx → Bool × Tx
  | [], _, tx => (true, tx)
  | evidence :: rest, i, tx =>
    match getEvidence (env.getEvidence i) db evidence.Name with
    | (dbEvidence, err) =>
      if err ≠ none ∧ err ≠ NotFound then (false, tx)
      else
        let state : Int := match dbEvidence with
          | some d => d.State
          | none => 0
        if env.insertEvidence i then (false, tx)
        else evidenceLoop env db reportID rest (i + 1)
          (tx.insertIgnoreEvidence db ⟨reportID, evidence.Name, pathExt evidence.Path, state⟩)

/-- Lines 133 to 145 of `handleCreateReport`: the status is reset when the
report is not public, then a new `Report` is built from the decoded one. -/
def normalizeReport (env : CreateEnv) (body : List Nat) (report : Report) : Report :=
  let report := if !report.Public then { report with Status := 0 } else report
  { UID := env.uuid
    Created := env.now
    Public := report.Public
    Status := report.Status
    Evidences := report.Evidences
    JSON := body }

/-- The row that `handleCreateReport` passes to `INSERT INTO report`; its id
is the next value of the auto-increment counter, which `LastInsertId` returns. -/
def reportRowOf (db : DB) (report : Report) : ReportRow :=
  ⟨db.reportSeq, report.UID, report.Created, report.Public, report.Status, report.JSON⟩

/-- The database once an insert into `report` has consumed an id. -/
def DB.bumpReportSeq (db : DB) : DB := { db with reportSeq := db.reportSeq + 1 }

/-- Lines 147 to 214 of `handleCreateReport`: the transaction that inserts the
normalised report and its evidence associations, and the answer. The two
early returns after `INSERT INTO report` and after `LastInsertId` do not call
`tx.Rollback()`. -/
def createReportTx (env : CreateEnv) (report : Report) (db : DB) : CreateResult :=
  if env.beginTx then ⟨.status 500, db, .notBegun⟩
  else if env.insertReport then ⟨.status 500, db, .leftOpen {}⟩
  else if env.lastInsertId then
    ⟨.status 500, db.bumpReportSeq, .leftOpen { report := [reportRowOf db report] }⟩
  else match evidenceLoop env db.bumpReportSeq db.reportSeq report.Evidences 0
      { report := [reportRowOf db report] } with
    | (false, tx1) => ⟨.status 500, db.bumpReportSeq, .rolledBack tx1⟩
    | (true, tx1) =>
      match env.commit with
      | some applied =>
        ⟨.status 500, if applied then db.bumpReportSeq.commit tx1 else db.bumpReportSeq,
          .commitFailed tx1⟩
      | none => ⟨.json (.report report), db.bumpReportSeq.commit tx1, .committed tx1⟩

/-- Go `handleCreateReport` of `rest.go`: read, decode into a `Report` whose
`Public` is preset to `true`, validate, normalise, then `createReportTx`. -/
def handleCreateReport (V : Validators) (env : CreateEnv) (req : CreateRequest) (db : DB) :
    CreateResult :=
  if env.readBody then ⟨.status 500, db, .notBegun⟩
  else match req.json.bind (fun j => unmarshalReport j { Public := true }) with
  | none => ⟨.status 400, db, .notBegun⟩
  | some decoded =>
    if !V.structReport decoded then ⟨.status 400, db, .notBegun⟩
    else if !decoded.Evidences.all (fun e => validateMetadata V e.Metadata) then
      ⟨.status 400, db, .notBegun⟩
    else createReportTx env (normalizeReport env req.body decoded) db

/-- The rows that the transaction of a call had written when the call ended. -/
def TxEnd.written : TxEnd → Tx
  | .notBegun => {}
  | .leftOpen tx => tx
  | .rolledBack tx => tx
  | .committed tx => tx
  | .commitFailed tx => tx

/-! ## Media registration (`rest.go`) -/

/-- The environment of one call of `handleRegisterFormMediaFiles`; `exec i` is
an error of the insert of the i-th attachment, `now` the value of `NOW()`. -/
structure RegisterEnv where
  now : Int := 0
  readBody : Bool := false
  exec : Nat → Bool := fun _ => false

/-- A registration body: the decoded value, `none` when it does not parse. -/
structure RegisterRequest where
  json : Option FormMediaFileRegister := none
  deriving DecidableEq, Repr

/-- The statement `INSERT INTO media_file (...) ON DUPLICATE KEY UPDATE
updated = NOW()`. Modelled from the spec: the unique key of `media_file`,
whose schema is not in the repository, is `uid` ("at most one record per
identifier"). -/
def execInsertMediaFile (db : DB) (now : Int) (m : MediaFile) : DB :=
  if db.media_file.any (fun r => r.uid = m.UID) then
    let rows := db.media_file.map
      (fun r => if r.uid = m.UID then { r with updated := some now } else r)
    { db with media_file := rows }
  else
    { db with
      media_file := db.media_file ++
        [⟨db.mediaSeq, m.UID, m.FileName, m.FileExt, m.Metadata, m.State, m.Created, none⟩]
      mediaSeq := db.mediaSeq + 1 }

/-- The insert loop of `handleRegisterFormMediaFiles` (lines 246 to 268), from
the i-th attachment on; the flag is `false` when an insert failed (500). Rows
inserted before the failure stay: there is no transaction. -/
def registerLoop (env : RegisterEnv) : List MediaFile → Nat → DB → Bool × DB
  | [], _, db => (true, db)
  | mediaFile :: rest, i, db =>
    let mediaFile := { mediaFile with State := 10 }
    let mediaFile := { mediaFile with FileExt := pathExt mediaFile.FileName }
    if env.exec i then (false, db)
    else registerLoop env rest (i + 1) (execInsertMediaFile db env.now mediaFile)

/-- Go `handleRegisterFormMediaFiles` of `rest.go`. -/
def handleRegisterFormMediaFiles (V : Validators) (env : RegisterEnv) (req : RegisterRequest)
    (db : DB) : DB × Response :=
  if env.readBody then (db, .status 500)
  else match req.json with
  | none => (db, .status 400)
  | some registration =>
    if !V.structRegistration registration then (db, .status 400)
    else if !registration.Attachments.all (validateMediafile V) then (db, .status 400)
    else match registerLoop env registration.Attachments 0 db with
      | (false, db1) => (db1, .status 500)
      | (true, db1) => (db1, .status 200)

/-! ## Upload, info, done (`upload.go`, `media_upload.go`) -/

/-- Errors of the environment during an upload: the lifecycle query, the
opening of the file, `io.Copy` (which fails after `k` bytes when
`copy = some k`), and `out.Sync()`. -/
structure UploadFaults where
  query : Bool := false
  openFile : Bool := false
  copy : Option Nat := none
  sync : Bool := false
  deriving DecidableEq, Repr

/-- The common tail of `handleUpload` (lines 44 to 66) and `handleMediaUpload`
(lines 48 to 70): open for append, copy the body, sync, answer. -/
def writeBody (f : UploadFaults) (name : String) (body : List Nat) (files : Store) :
    Store × Response :=
  if f.openFile then (files, .status 500)
  else match f.copy with
    | some k => (files.append name (body.take k), .status 500)
    | none =>
      if f.sync then (files.append name body, .status 500)
      else (files.append name body, .status 200)

/-- Go `handleUpload` of `upload.go`. -/
def handleUpload (V : Validators) (f : UploadFaults) (name : String) (body : List Nat)
    (s : Sys) : Sys × Response :=
  if !V.IsUUID name then (s, .status 400)
  else match isEvidenceUploded f.query s.db name with
    | none => (s, .panicked)
    | some (uploaded, err) =>
      if err ≠ none then (s, .status 500)
      else if uploaded then (s, .status 403)
      else
        ({ s with files := (writeBody f name body s.files).1 },
          (writeBody f name body s.files).2)

/-- Go `handleMediaUpload` of `media_upload.go`. -/
def handleMediaUpload (V : Validators) (f : UploadFaults) (uid : String) (body : List Nat)
    (s : Sys) : Sys × Response :=
  if !V.IsUUID uid then (s, .status 400)
  else match isMediaFileUplodable f.query s.db uid with
    | none => (s, .panicked)
    | some (uploadable, err) =>
      if err ≠ none then (s, .status 500)
      else if !uploadable then (s, .status 403)
      else
        ({ s with files := (writeBody f uid body s.files).1 },
          (writeBody f uid body s.files).2)

/-- Errors of the environment during an info call: the lifecycle query (media
variant only) and an `os.Stat` error other than "does not exist". -/
structure InfoFaults where
  query : Bool := false
  stat : Bool := false
  deriving DecidableEq, Repr

/-- Go `handleInfo` of `upload.go`. -/
def handleInfo (V : Validators) (f : InfoFaults) (name : String) (s : Sys) : Response :=
  if !V.IsUUID name then .status 400
  else if f.stat then .status 500
  else match s.files.size name with
    | none => .status 404
    | some size => .json (.fileInfo name size)

/-- Go `handleMediaInfo` of `media_upload.go`. -/
def handleMediaInfo (V : Validators) (f : InfoFaults) (uid : String) (s : Sys) : Response :=
  if !V.IsUUID uid then .status 400
  else match getMediaFile f.query s.db uid with
    | (_, err) =>
      if err ≠ none then
        if err = NotFound then .status 404
        else .status 500
      else if f.stat then .status 500
      else match s.files.size uid with
        | none => .json (.mediaFileInfo uid 0)
        | some size => .json (.mediaFileInfo uid size)

/-- Errors of the environment during a done call: `DB.Exec` and
`result.RowsAffected()`. -/
structure DoneFaults where
  exec : Bool := false
  rowsAffected : Bool := false
  deriving DecidableEq, Repr

/-- The statement `UPDATE evidence SET state = ? WHERE uid = ?` and its
`RowsAffected()`. Every row with that uid gets the state. The count is the
number of rows whose content changed, not the number of rows that the `WHERE`
clause matched: that is what MySQL reports for an `UPDATE` unless the
connection sets the flag `CLIENT_FOUND_ROWS`, and the driver imported by
`whistler.go` sets it only for a data source name with `clientFoundRows=true`
(default `false`). -/
def execUpdateEvidence (db : DB) (state : Int) (uid : String) : DB × Nat :=
  let rows := db.evidence.map (fun r => if r.uid = uid then { r with state := state } else r)
  let changed := db.evidence.filter (fun r => r.uid = uid ∧ r.state ≠ state)
  ({ db with evidence := rows }, changed.length)

/-- The statement `UPDATE media_file SET state = ? WHERE uid = ?` and its
`RowsAffected()` (rows changed, as for `execUpdateEvidence`). -/
def execUpdateMediaFile (db : DB) (state : Int) (uid : String) : DB × Nat :=
  let rows := db.media_file.map (fun r => if r.uid = uid then { r with state := state } else r)
  let changed := db.media_file.filter (fun r => r.uid = uid ∧ r.state ≠ state)
  ({ db with media_file := rows }, changed.length)

/-- Go `handleDone` of `upload.go`. -/
def handleDone (V : Validators) (f : DoneFaults) (name : String) (db : DB) : DB × Response :=
  if !V.IsUUID name then (db, .status 400)
  else if f.exec then (db, .status 500)
  else if f.rowsAffected then ((execUpdateEvidence db 20 name).1, .status 500)
  else if (execUpdateEvidence db 20 name).2 = 0 then
    ((execUpdateEvidence db 20 name).1, .status 404)
  else ((execUpdateEvidence db 20 name).1, .status 200)

/-- Go `handleMediaDone` of `media_upload.go`. -/
def handleMediaDone (V : Validators) (f : DoneFaults) (uid : String) (db : DB) : DB × Response :=
  if !V.IsUUID uid then (db, .status 400)
  else if f.exec then (db, .status 500)
  else if f.rowsAffected then ((execUpdateMediaFile db 30 uid).1, .status 500)
  else if (execUpdateMediaFile db 30 uid).2 = 0 then
    ((execUpdateMediaFile db 30 uid).1, .status 404)
  else ((execUpdateMediaFile db 30 uid).1, .status 200)

/-! ## Sequences of requests -/

/-- One request to the router of `whistler.go`, with its environment. -/
inductive Op where
  | createReport (env : CreateEnv) (req : CreateRequest)
  | registerFormMediaFiles (env : RegisterEnv) (req : RegisterRequest)
  | upload (f : UploadFaults) (name : String) (body : List Nat)
  | info (f : InfoFaults) (name : String)
  | done (f : DoneFaults) (name : String)
  | mediaUpload (f : UploadFaults) (uid : String) (body : List Nat)
  | mediaInfo (f : InfoFaults) (uid : String)
  | mediaDone (f : DoneFaults) (uid : String)

/-- The state after a request and the response to it. -/
def step (V : Validators) (op : Op) (s : Sys) : Sys × Response :=
  match op with
  | .createReport env req =>
    ({ s with db := (handleCreateReport V env req s.db).db },
      (handleCreateReport V env req s.db).resp)
  | .registerFormMediaFiles env req =>
    ({ s with db := (handleRegisterFormMediaFiles V env req s.db).1 },
      (handleRegisterFormMediaFiles V env req s.db).2)
  | .upload f name body => handleUpload V f name body s
  | .info f name => (s, handleInfo V f name s)
  | .done f name =>
    ({ s with db := (handleDone V f name s.db).1 }, (handleDone V f name s.db).2)
  | .mediaUpload f uid body => handleMediaUpload V f uid body s
  | .mediaInfo f uid => (s, handleMediaInfo V f uid s)
  | .mediaDone f uid =>
    ({ s with db := (handleMediaDone V f uid s.db).1 }, (handleMediaDone V f uid s.db).2)

/-- The state after a sequence of requests served one after the other. -/
def run (V : Validators) : List Op → Sys → Sys
  | [], s => s
  | op :: ops, s => run V ops (step V op s).1

/-! ## A concrete validator instance -/

/-- A character of the class `[0-9a-f]`. -/
def hexLower (c : Char) : Bool :=
  c.isDigit || (decide ('a' ≤ c) && decide (c ≤ 'f'))

/-- The shape that `govalidator.IsUUID` accepts: 36 characters, dashes at
positions 8, 13, 18 and 23, lowercase hexadecimal digits elsewhere. -/
def uuidShape (s : String) : Bool :=
  s.toList.length == 36 &&
  (List.range 36).all (fun i =>
    if i = 8 ∨ i = 13 ∨ i = 18 ∨ i = 23 then s.toList.getD i ' ' == '-'
    else hexLower (s.toList.getD i ' '))

/-- The tag `valid:"uuid,optional"`: empty, or a UUID. -/
def optionalUUID (s : String) : Bool := s.isEmpty || uuidShape s

/-- An instance of `Validators` on which the handlers can be evaluated: UUIDs by
shape, and for the structs the `uuid,optional` and `required` tags of
`rest.go`. The theorems below hold for every instance. -/
def sampleValidators : Validators where
  IsUUID := uuidShape
  structReport := fun r =>
    optionalUUID r.UID && !r.Evidences.isEmpty && !r.Recipients.isEmpty &&
    r.Evidences.all (fun e => optionalUUID e.UID && optionalUUID e.Name)
  structMetadata := fun _ => true
  structRegistration := fun r => r.Attachments.all (fun m => optionalUUID m.UID)
  structMediaFile := fun m => optionalUUID m.UID

/-! ## Concrete requests -/

/-- An evidence identifier. -/
def e1 : String := "6ba7b810-9dad-11d1-80b4-00c04fd430c8"

/-- A second evidence identifier. -/
def e2 : String := "6ba7b811-9dad-11d1-80b4-00c04fd430c8"

/-- A third evidence identifier. -/
def e3 : String := "6ba7b812-9dad-11d1-80b4-00c04fd430c8"

/-- A JSON object with `public` false and `status` 1 (approved), one evidence
and one recipient. -/
def privateApprovedJSON : ReportJSON :=
  { isPublic := some false
    status := some 1
    evidences := some [{ Name := e1, Path := "6ba7b810-9dad-11d1-80b4-00c04fd430c8.jpg" }]
    recipients := some [{}] }

/-- A request whose body encodes `privateApprovedJSON`. -/
def privateApproved : CreateRequest :=
  { body := [123, 125], json := some privateApprovedJSON }

/-- The struct that `json.Unmarshal` fills from `privateApproved`. -/
def privateApprovedDecoded : Report :=
  { Public := false
    Status := 1
    Evidences := [{ Name := e1, Path := "6ba7b810-9dad-11d1-80b4-00c04fd430c8.jpg" }]
    Recipients := [{}] }

/-- A JSON object of a public report with three evidences. -/
def threeEvidencesJSON : ReportJSON :=
  { status := some 1
    evidences := some [{ Name := e1 }, { Name := e2 }, { Name := e3 }]
    recipients := some [{}] }

/-- A request whose body encodes `threeEvidencesJSON`. -/
def threeEvidences : CreateRequest :=
  { body := [123, 125], json := some threeEvidencesJSON }

/-- An environment in which only the insert of the second evidence association
fails. -/
def secondInsertFails : CreateEnv :=
  { insertEvidence := fun i => i == 1 }

/-- A database that already holds one report with one association. -/
def oneReportDB : DB :=
  { report := [⟨1, "r", 0, true, 0, []⟩]
    evidence := [⟨1, e3, ".jpg", 0⟩]
    reportSeq := 2 }

/-- The database after two reports that both reference `e1`. -/
def twoReportsDB : DB :=
  (handleCreateReport sampleValidators {} privateApproved
    (handleCreateReport sampleValidators {} privateApproved {}).db).db

/-- The database after two reports that reference `e1` and a done call on `e1`. -/
def afterDoneDB : DB := (handleDone sampleValidators {} e1 twoReportsDB).1

/-! ## Invariants of the lifecycle tables -/

/-- All rows of an evidence table that have the same uid have the same state. -/
def SharedState (rows : List EvidenceRow) : Prop :=
  ∀ a ∈ rows, ∀ b ∈ rows, a.uid = b.uid → a.state = b.state

/-- Two reports that reference `e1`, a done call on `e1`, then a third report
that references `e1`. -/
def sharedEvidenceOps : List Op :=
  [.createReport {} privateApproved, .createReport {} privateApproved, .done {} e1,
   .createReport {} privateApproved]

/-- A media file identifier. -/
def f1 : String := "0e37df36-f698-11e6-8dd4-cb9ced3df976"

/-- An attachment for `f1`, sent with state 30. -/
def mediaF1 : MediaFile :=
  { UID := f1, FileName := "0e37df36-f698-11e6-8dd4-cb9ced3df976.jpg", State := 30 }

/-- A registration of the one media file `mediaF1`. -/
def registerF1 : RegisterRequest :=
  { json := some { Attachments := [mediaF1] } }

/-- The system after the registration of `f1`. -/
def registeredF1 : Sys :=
  (step sampleValidators (.registerFormMediaFiles {} registerF1) {}).1

/-- The system after one report that references `e1`. -/
def reportedE1 : Sys :=
  (step sampleValidators (.createReport {} privateApproved) {}).1

/-- The system after the registration of `f1` and an upload of three bytes to it. -/
def uploadedF1 : Sys :=
  run sampleValidators [.registerFormMediaFiles {} registerF1, .mediaUpload {} f1 [1, 2, 3]] {}

/-- A system with no record at all and one file, named `e1`. -/
def strayFile : Sys := { files := [(e1, [1, 2, 3])] }

/-! ## Tables that only grow -/

/-- The relation between a table and the same table later: `new` holds, row by
row and in the same order, a row related by `R` to each row of `old`, and after
them any number of further rows. No row is deleted or moved. -/
def Grows {α : Type} (R : α → α → Prop) : List α → List α → Prop
  | [], _ => True
  | _ :: _, [] => False
  | a :: as, b :: bs => R a b ∧ Grows R as bs

/-- An evidence row and what it may have become: the same report, uid and
extension, and a state that is the old one or 20 and is not smaller. -/
def EvidenceRow.later (old new : EvidenceRow) : Prop :=
  new.reportId = old.reportId ∧ new.uid = old.uid ∧ new.fileExt = old.fileExt ∧
  old.state ≤ new.state ∧ (new.state = old.state ∨ new.state = 20)

/-- A media file row and what it may have become: only `updated` and `state`
may differ, and the state is the old one or 30 and is not smaller. -/
def MediaFileRow.later (old new : MediaFileRow) : Prop :=
  new.id = old.id ∧ new.uid = old.uid ∧ new.fileName = old.fileName ∧
  new.fileExt = old.fileExt ∧ new.metadata = old.metadata ∧ new.created = old.created ∧
  old.state ≤ new.state ∧ (new.state = old.state ∨ new.state = 30)

/-- A media file row and the same record with another `updated` timestamp. -/
def MediaFileRow.sameRecord (old new : MediaFileRow) : Prop :=
  new.id = old.id ∧ new.uid = old.uid ∧ new.fileName = old.fileName ∧
  new.fileExt = old.fileExt ∧ new.metadata = old.metadata ∧ new.created = old.created ∧
  new.state = old.state

/-- A media file row without its `updated` timestamp. -/
def MediaFileRow.forgetUpdated (r : MediaFileRow) : MediaFileRow :=
  { r with updated := none }

instance (old new : EvidenceRow) : Decidable (old.later new) := by
  unfold EvidenceRow.later; infer_instance

instance (old new : MediaFileRow) : Decidable (old.later new) := by
  unfold MediaFileRow.later; infer_instance

instance (old new : MediaFileRow) : Decidable (old.sameRecord new) := by
  unfold MediaFileRow.sameRecord; infer_instance

/-- `Grows R` is decidable when `R` is. -/
def Grows.decide {α : Type} (R : α → α → Prop) [DecidableRel R] :
    (old new : List α) → Decidable (Grows R old new)
  | [], _ => isTrue trivial
  | _ :: _, [] => isFalse (fun h => h)
  | a :: as, b :: bs =>
    match (inferInstance : Decidable (R a b)), Grows.decide R as bs with
    | isTrue h1, isTrue h2 => isTrue ⟨h1, h2⟩
    | isFalse h1, _ => isFalse (fun h => h1 h.1)
    | _, isFalse h2 => isFalse (fun h => h2 h.2)

instance {α : Type} (R : α → α → Prop) [DecidableRel R] (old new : List α) :
    Decidable (Grows R old new) := Grows.decide R old new

/-- A report on `e1` and the registration of `f1`. -/
def lifecycleOpsBefore : List Op :=
  [.createReport {} privateApproved, .registerFormMediaFiles {} registerF1]

/-- Done calls on `e1` and `f1`, then a second report on `e1` and a second
registration of `f1`. -/
def lifecycleOpsAfter : List Op :=
  [.done {} e1, .mediaDone {} f1, .createReport {} privateApproved,
   .registerFormMediaFiles {} registerF1]

/-! ## The reflector (`appengine/whistler-hosts.go`) -/

/-- Go `url.URL`: the fields that `url.Parse` fills (`User` as its string). -/
structure URL where
  Scheme : String := ""
  Opaque : String := ""
  User : String := ""
  Host : String := ""
  Path : String := ""
  RawPath : String := ""
  ForceQuery : Bool := false
  RawQuery : String := ""
  Fragment : String := ""
  deriving DecidableEq, Repr

/-- The functions of Go's `net/url` that the reflector calls; the package is
not part of the repository. `URLString` is the method `(*URL).String`. -/
structure NetURL where
  Parse : String → Except ErrVal URL
  URLString : URL → String

/-- The package variables of `whistler-hosts.go`, two Go maps kept as lists of
key and value. -/
structure Hosts where
  secrets : List (String × String)
  allowed : List (String × Bool)
  deriving DecidableEq, Repr

/-- The values the package variables `secrets` and `allowed` are given. -/
def hosts : Hosts where
  secrets := [("secret", "secret.whistlerapp.org")]
  allowed := [("whistlerapp.org", true), ("www.whistlerapp.org", true)]

/-- A Go index expression `m[key]` on a `map[string]string`: the zero value
`""` when the key is absent. -/
def indexString (m : List (String × String)) (key : String) : String :=
  (m.lookup key).getD ""

/-- A Go index expression `m[key]` on a `map[string]bool`: `false` when the key
is absent. -/
def indexBool (m : List (String × Bool)) (key : String) : Bool :=
  (m.lookup key).getD false

/-- Go `isURLAllowed`. -/
def isURLAllowed (h : Hosts) (url : URL) : Bool :=
  if h.allowed.length = 0 then true
  else indexBool h.allowed url.Host

/-- Lines 30 to 33 of `GetWhistlerURL`: the host is replaced when `secrets`
maps it to a non-empty string. -/
def translateHost (h : Hosts) (url : URL) : URL :=
  if indexString h.secrets url.Host ≠ "" then { url with Host := indexString h.secrets url.Host }
  else url

/-- Go `GetWhistlerURL`: the string result and the error result. -/
def GetWhistlerURL (N : NetURL) (h : Hosts) (rawurl : String) : String × GoError :=
  match N.Parse rawurl with
  | .error err => ("", some err)
  | .ok url =>
    if !isURLAllowed h (translateHost h url) then ("", some (.other "Forward URL not allowed"))
    else (N.URLString (translateHost h url), none)

/-- The characters up to the first slash, and the rest from that slash on. -/
def splitAtSlash : List Char → List Char × List Char
  | [] => ([], [])
  | c :: cs => if c = '/' then ([], c :: cs) else ((c :: (splitAtSlash cs).1), (splitAtSlash cs).2)

/-- An instance of `NetURL` on which `GetWhistlerURL` can be evaluated. It reads
only URLs of the form `https://host` followed by an optional path, and writes
them back in that form. The theorems hold for every instance. -/
def sampleNetURL : NetURL where
  Parse := fun raw =>
    if raw.toList.take 8 = "https://".toList then
      .ok { Scheme := "https"
            Host := String.mk (splitAtSlash (raw.toList.drop 8)).1
            Path := String.mk (splitAtSlash (raw.toList.drop 8)).2 }
    else .error (.other "unsupported URL")
  URLString := fun u => u.Scheme ++ "://" ++ u.Host ++ u.Path

/-! ## The file validators (`validation.go`) -/

/-- The map `fileExts` of `init`, as the index expression `fileExts[key]`. -/
def fileExts (key : String) : Bool :=
  key = "jpg" || key = "jpeg" || key = "aac" || key = "mp4" || key = "mpeg4"

/-- Go `strings.ToLower`, rune by rune. A rune below U+0080 is lowered by the
ASCII rule; for the others `unicode.ToLower` reads the Unicode tables, which
are taken as the parameter `lowerRune`. -/
def ToLower (lowerRune : Char → Char) (s : String) : String :=
  String.mk (s.toList.map (fun c => if c.val < 128 then c.toLower else lowerRune c))

/-- Go `strings.Split(str, ".")` on the characters of `str`: the pieces between
the dots, one more than there are dots. -/
def splitDot : List Char → List (List Char)
  | [] => [[]]
  | c :: cs =>
    if c = '.' then [] :: splitDot cs
    else match splitDot cs with
      | [] => [[c]]
      | p :: ps => (c :: p) :: ps

/-- The validator registered as `whistlerfile`. -/
def whistlerfile (V : Validators) (lowerRune : Char → Char) (str : String) : Bool :=
  if IsNull str then true
  else match splitDot str.toList with
    | [p0, p1] => V.IsUUID (String.mk p0) && fileExts (ToLower lowerRune (String.mk p1))
    | _ => false

/-- The Go slice expression `str[1:]`, which drops one byte. When the first
character is longer than one byte the result is not valid UTF-8 (`none`). The
validator slices only strings of two bytes or more. -/
def sliceFrom1 (str : String) : Option String :=
  match str.toList with
  | [] => none
  | c :: cs => if c.utf8Size = 1 then some (String.mk cs) else none

/-- The validator registered as `whistlerfileext`. `len(str)` counts bytes.
When `str[1:]` is not valid UTF-8, `ToLower` returns a string that starts with
U+FFFD, which is no key of `fileExts`. -/
def whistlerfileext (lowerRune : Char → Char) (str : String) : Bool :=
  if IsNull str then true
  else if str.utf8ByteSize < 2 then false
  else match sliceFrom1 str with
    | none => false
    | some rest => fileExts (ToLower lowerRune rest)

/-- A Go map holds each key once: the keys of both lists are distinct. -/
def Hosts.wellFormed (h : Hosts) : Prop :=
  (h.secrets.map Prod.fst).Nodup ∧ (h.allowed.map Prod.fst).Nodup

instance (h : Hosts) : Decidable h.wellFormed := by
  unfold Hosts.wellFormed; infer_instance

/-- The words of the claim, "a secret alias has been replaced by the secret
host it maps to", on the entries of the map: `translated` is the value that
`secrets` holds for `host` when it holds one that is not empty, and `host`
itself otherwise. -/
def SecretTranslation (secrets : List (String × String)) (host translated : String) : Prop :=
  (∃ target, (host, target) ∈ secrets ∧ target ≠ "" ∧ translated = target) ∨
  ((∀ target, (host, target) ∈ secrets → target = "") ∧ translated = host)

/-- The words of the claim, "is in the allowed set (or the allowed set is
empty)", on the entries of the map. -/
def InAllowedSet (allowed : List (String × Bool)) (host : String) : Prop :=
  allowed = [] ∨ (host, true) ∈ allowed

/-- A character of a host name in `goNetURL`: a letter, a digit, a dot or a
dash. -/
def goHostChar (c : Char) : Bool :=
  c.isAlpha || c.isDigit || c = '.' || c = '-'

/-- A character of a path in `goNetURL`: an unreserved character or a slash. -/
def goPathChar (c : Char) : Bool :=
  c.isAlpha || c.isDigit || c = '/' || c = '.' || c = '-' || c = '_' || c = '~'

/-- Go's `url.Parse` on raw URLs of the form `scheme://host` followed by an
optional path, where the scheme is made of ASCII letters, the host of
`goHostChar` and the path, which starts with a slash, of `goPathChar`: the
scheme is lowercased, host and path are kept, every other field is empty.
Other raw URLs are outside this model and are reported as an error. -/
def goParse (raw : String) : Except ErrVal URL :=
  match raw.toList.dropWhile Char.isAlpha with
  | ':' :: '/' :: '/' :: rest =>
    if raw.toList.takeWhile Char.isAlpha ≠ [] ∧ rest.takeWhile goHostChar ≠ [] ∧
        ((rest.dropWhile goHostChar).head? = none ∨
          (rest.dropWhile goHostChar).head? = some '/') ∧
        (rest.dropWhile goHostChar).all goPathChar = true then
      .ok { Scheme := String.mk ((raw.toList.takeWhile Char.isAlpha).map Char.toLower)
            Host := String.mk (rest.takeWhile goHostChar)
            Path := String.mk (rest.dropWhile goHostChar) }
    else .error (.other "outside the modelled URLs")
  | _ => .error (.other "outside the modelled URLs")

/-- Go's `net/url` on the URLs that `goParse` reads: `(*URL).String` writes the
scheme, `://`, the host and the path; none of their characters is escaped. -/
def goNetURL : NetURL where
  Parse := goParse
  URLString := fun u => u.Scheme ++ "://" ++ u.Host ++ u.Path

/-! ## Report creation: the shape of a call -/

theorem insertIgnoreEvidence_report (tx : Tx) (db : DB) (row : EvidenceRow) :
    (tx.insertIgnoreEvidence db row).report = tx.report := by
  unfold Tx.insertIgnoreEvidence
  split <;> rfl

theorem evidenceLoop_report (env : CreateEnv) (db : DB) (reportID : Nat) (es : List Evidence) :
    ∀ (i : Nat) (tx : Tx), (evidenceLoop env db reportID es i tx).2.report = tx.report := by
  induction es with
  | nil => intro i tx; rfl
  | cons e rest ih =>
    intro i tx
    simp only [evidenceLoop]
    split
    · rfl
    · split
      · rfl
      · rw [ih, insertIgnoreEvidence_report]

theorem getEvidence_noFault_err (db : DB) (uid : String) :
    (getEvidence false db uid).2 = none := by
  unfold getEvidence queryRowEvidence
  simp only [Bool.false_eq_true, if_false]
  cases db.evidence.find? (fun r => r.uid = uid) <;> simp [NotFound]

theorem evidenceLoop_noFault (env : CreateEnv) (db : DB) (reportID : Nat)
    (hq : ∀ i, env.getEvidence i = false) (hi : ∀ i, env.insertEvidence i = false)
    (es : List Evidence) :
    ∀ (i : Nat) (tx : Tx), (evidenceLoop env db reportID es i tx).1 = true := by
  induction es with
  | nil => intro i tx; rfl
  | cons e rest ih =>
    intro i tx
    simp only [evidenceLoop, hq, hi, getEvidence_noFault_err]
    simp [ih]

/-- The six ways a call of `createReportTx` can end. -/
theorem createReportTx_cases (env : CreateEnv) (report : Report) (db : DB) :
    (env.beginTx = true ∧ createReportTx env report db = ⟨.status 500, db, .notBegun⟩) ∨
    (env.beginTx = false ∧ env.insertReport = true ∧
      createReportTx env report db = ⟨.status 500, db, .leftOpen {}⟩) ∨
    (env.beginTx = false ∧ env.insertReport = false ∧ env.lastInsertId = true ∧
      createReportTx env report db =
        ⟨.status 500, db.bumpReportSeq, .leftOpen { report := [reportRowOf db report] }⟩) ∨
    (env.beginTx = false ∧ env.insertReport = false ∧ env.lastInsertId = false ∧
      ∃ tx1, evidenceLoop env db.bumpReportSeq db.reportSeq report.Evidences 0
          { report := [reportRowOf db report] } = (false, tx1) ∧
        createReportTx env report db = ⟨.status 500, db.bumpReportSeq, .rolledBack tx1⟩) ∨
    (env.beginTx = false ∧ env.insertReport = false ∧ env.lastInsertId = false ∧
      ∃ tx1 applied, evidenceLoop env db.bumpReportSeq db.reportSeq report.Evidences 0
          { report := [reportRowOf db report] } = (true, tx1) ∧ env.commit = some applied ∧
        createReportTx env report db =
          ⟨.status 500, if applied then db.bumpReportSeq.commit tx1 else db.bumpReportSeq,
            .commitFailed tx1⟩) ∨
    (env.beginTx = false ∧ env.insertReport = false ∧ env.lastInsertId = false ∧
      ∃ tx1, evidenceLoop env db.bumpReportSeq db.reportSeq report.Evidences 0
          { report := [reportRowOf db report] } = (true, tx1) ∧ env.commit = none ∧
        createReportTx env report db =
          ⟨.json (.report report), db.bumpReportSeq.commit tx1, .committed tx1⟩) := by
  unfold createReportTx
  cases hb : env.beginTx
  · cases hi : env.insertReport
    · cases hl : env.lastInsertId
      · simp only [Bool.false_eq_true, if_false]
        rcases hloop : evidenceLoop env db.bumpReportSeq db.reportSeq
          report.Evidences 0 { report := [reportRowOf db report] } with ⟨ok, tx1⟩
        cases ok
        · right; right; right; left
          exact ⟨trivial, trivial, trivial, tx1, rfl, rfl⟩
        · cases hc : env.commit with
          | none =>
            right; right; right; right; right
            exact ⟨trivial, trivial, trivial, tx1, rfl, rfl, rfl⟩
          | some applied =>
            right; right; right; right; left
            exact ⟨trivial, trivial, trivial, tx1, applied, rfl, rfl, rfl⟩
      · right; right; left
        exact ⟨rfl, rfl, rfl, rfl⟩
    · right; left
      exact ⟨rfl, rfl, rfl⟩
  · left
    exact ⟨rfl, rfl⟩

/-- A request that decodes and validates reaches the transaction. -/
theorem handleCreateReport_valid (V : Validators) (env : CreateEnv) (req : CreateRequest)
    (db : DB) (j : ReportJSON) (decoded : Report)
    (hread : env.readBody = false)
    (hjson : req.json = some j)
    (hdec : unmarshalReport j { Public := true } = some decoded)
    (hvalid : V.structReport decoded = true)
    (hmeta : decoded.Evidences.all (fun e => validateMetadata V e.Metadata) = true) :
    handleCreateReport V env req db =
      createReportTx env (normalizeReport env req.body decoded) db := by
  unfold handleCreateReport
  rw [hjson]
  simp only [Option.bind, hdec, hread, hvalid, hmeta, Bool.not_true, Bool.false_eq_true,
    if_false]

theorem unmarshalReport_fields (j : ReportJSON) (decoded : Report)
    (hdec : unmarshalReport j { Public := true } = some decoded) :
    decoded.Public = j.isPublic.getD true ∧ decoded.Status = j.status.getD 0 ∧
    decoded.Evidences = j.evidences.getD [] := by
  unfold unmarshalReport at hdec
  split at hdec
  · exact absurd hdec (by simp)
  · simp only [Option.some.injEq] at hdec
    subst hdec
    exact ⟨rfl, rfl, rfl⟩

theorem normalizeReport_fields (env : CreateEnv) (body : List Nat) (decoded : Report) :
    (normalizeReport env body decoded).Status = (if decoded.Public then decoded.Status else 0) ∧
    (normalizeReport env body decoded).Public = decoded.Public ∧
    (normalizeReport env body decoded).Evidences = decoded.Evidences ∧
    (normalizeReport env body decoded).JSON = body ∧
    (normalizeReport env body decoded).UID = env.uuid ∧
    (normalizeReport env body decoded).Created = env.now := by
  unfold normalizeReport
  cases hP : decoded.Public <;> simp [hP]

/-! ## C1: the public flag and the review status -/

theorem handleCreateReport_readBody (V : Validators) (env : CreateEnv) (req : CreateRequest)
    (db : DB) (hread : env.readBody = true) :
    handleCreateReport V env req db = ⟨.status 500, db, .notBegun⟩ := by
  unfold handleCreateReport
  simp [hread]

theorem loop_report_of_eq {env : CreateEnv} {db : DB} {reportID : Nat} {es : List Evidence}
    {tx tx1 : Tx} {ok : Bool} (h : evidenceLoop env db reportID es 0 tx = (ok, tx1)) :
    tx1.report = tx.report := by
  have := evidenceLoop_report env db reportID es 0 tx
  rw [h] at this
  exact this

/-- C1. For every request that decodes (JSON object `j`, struct `decoded`) and
passes validation: each report row the handler writes, and the report of each
200 answer, has status 0 when `public` is false and the submitted status when
`public` is true or absent (absent counts as true; an absent status is 0); a
200 answer has committed exactly that row; and when no call of the environment
fails the answer is 200 with the report. -/
theorem handleCreateReport_status (V : Validators) (env : CreateEnv) (req : CreateRequest)
    (db : DB) (j : ReportJSON) (decoded : Report)
    (hjson : req.json = some j)
    (hdec : unmarshalReport j { Public := true } = some decoded)
    (hvalid : V.structReport decoded = true)
    (hmeta : decoded.Evidences.all (fun e => validateMetadata V e.Metadata) = true) :
    (∀ row ∈ (handleCreateReport V env req db).tx.written.report,
        row.isPublic = j.isPublic.getD true ∧
        row.status = if j.isPublic.getD true then j.status.getD 0 else 0) ∧
    (∀ data, (handleCreateReport V env req db).resp = .json (.report data) →
        data.Public = j.isPublic.getD true ∧
        data.Status = (if j.isPublic.getD true then j.status.getD 0 else 0) ∧
        (handleCreateReport V env req db).db.report = db.report ++ [reportRowOf db data]) ∧
    (env.noFault → ∃ data, (handleCreateReport V env req db).resp = .json (.report data)) := by
  obtain ⟨hp, hs, _⟩ := unmarshalReport_fields j decoded hdec
  obtain ⟨nst, npub, _⟩ := normalizeReport_fields env req.body decoded
  rw [hp, hs] at nst
  rw [hp] at npub
  cases hread : env.readBody
  · rw [handleCreateReport_valid V env req db j decoded hread hjson hdec hvalid hmeta]
    have hrow : (reportRowOf db (normalizeReport env req.body decoded)).isPublic
          = j.isPublic.getD true ∧
        (reportRowOf db (normalizeReport env req.body decoded)).status
          = if j.isPublic.getD true then j.status.getD 0 else 0 := ⟨npub, nst⟩
    rcases createReportTx_cases env (normalizeReport env req.body decoded) db with
      ⟨hb, h⟩ | ⟨hb, hi, h⟩ | ⟨hb, hi, hl, h⟩ | ⟨hb, hi, hl, tx1, hloop, h⟩ |
      ⟨hb, hi, hl, tx1, applied, hloop, hc, h⟩ | ⟨hb, hi, hl, tx1, hloop, hc, h⟩
    · rw [h]
      refine ⟨by simp [TxEnd.written], by simp, ?_⟩
      intro hnf; rw [hnf.2.1] at hb; cases hb
    · rw [h]
      refine ⟨by simp [TxEnd.written], by simp, ?_⟩
      intro hnf; rw [hnf.2.2.1] at hi; cases hi
    · rw [h]
      refine ⟨?_, by simp, ?_⟩
      · intro row hrow1
        simp only [TxEnd.written, List.mem_singleton] at hrow1
        rw [hrow1]; exact hrow
      · intro hnf; rw [hnf.2.2.2.1] at hl; cases hl
    · rw [h]
      refine ⟨?_, by simp, ?_⟩
      · intro row hrow1
        simp only [TxEnd.written, loop_report_of_eq hloop, List.mem_singleton] at hrow1
        rw [hrow1]; exact hrow
      · intro hnf
        have := evidenceLoop_noFault env db.bumpReportSeq db.reportSeq hnf.2.2.2.2.1
          hnf.2.2.2.2.2.1 (normalizeReport env req.body decoded).Evidences 0
          { report := [reportRowOf db (normalizeReport env req.body decoded)] }
        rw [hloop] at this
        cases this
    · rw [h]
      refine ⟨?_, by simp, ?_⟩
      · intro row hrow1
        simp only [TxEnd.written, loop_report_of_eq hloop, List.mem_singleton] at hrow1
        rw [hrow1]; exact hrow
      · intro hnf; rw [hnf.2.2.2.2.2.2] at hc; cases hc
    · rw [h]
      refine ⟨?_, ?_, ?_⟩
      · intro row hrow1
        simp only [TxEnd.written, loop_report_of_eq hloop, List.mem_singleton] at hrow1
        rw [hrow1]; exact hrow
      · intro data hdata
        simp only [Response.json.injEq, Body.report.injEq] at hdata
        subst hdata
        refine ⟨npub, nst, ?_⟩
        simp only [DB.commit, DB.bumpReportSeq, loop_report_of_eq hloop]
      · intro _
        exact ⟨_, rfl⟩
  · rw [handleCreateReport_readBody V env req db hread]
    refine ⟨by simp [TxEnd.written], by simp, ?_⟩
    intro hnf; rw [hnf.1] at hread; cases hread


/-- Witness of C1: `public` false with `status` 1 is stored and returned with
status 0. -/
theorem handleCreateReport_status_witness :
    (privateApproved.json = some privateApprovedJSON ∧
     unmarshalReport privateApprovedJSON { Public := true } = some privateApprovedDecoded ∧
     sampleValidators.structReport privateApprovedDecoded = true ∧
     privateApprovedDecoded.Evidences.all
       (fun e => validateMetadata sampleValidators e.Metadata) = true) ∧
    (∀ row ∈ (handleCreateReport sampleValidators {} privateApproved {}).tx.written.report,
      row.isPublic = false ∧ row.status = 0) ∧
    (∀ data, (handleCreateReport sampleValidators {} privateApproved {}).resp
        = .json (.report data) → data.Public = false ∧ data.Status = 0 ∧
      (handleCreateReport sampleValidators {} privateApproved {}).db.report
        = [reportRowOf {} data]) ∧
    (CreateEnv.noFault {} →
      ∃ data, (handleCreateReport sampleValidators {} privateApproved {}).resp
        = .json (.report data)) :=
  ⟨⟨rfl, by decide, by decide, by decide⟩,
    handleCreateReport_status sampleValidators {} privateApproved {} privateApprovedJSON
      privateApprovedDecoded rfl (by decide) (by decide) (by decide)⟩

/-! ## C2: rollback on failure -/

/-- When the insert of the report row or the reading of its id fails, the call
answers 500 and its transaction is left open; when the evidence loop fails,
the transaction is rolled back. -/
theorem createReportTx_failure_paths (env : CreateEnv) (report : Report) (db : DB)
    (hb : env.beginTx = false) :
    ((env.insertReport = true ∨ env.lastInsertId = true) →
      (createReportTx env report db).resp = .status 500 ∧
      ∃ tx, (createReportTx env report db).tx = .leftOpen tx) ∧
    (env.insertReport = false → env.lastInsertId = false →
      (evidenceLoop env db.bumpReportSeq db.reportSeq report.Evidences 0
        { report := [reportRowOf db report] }).1 = false →
      (createReportTx env report db).resp = .status 500 ∧
      ∃ tx, (createReportTx env report db).tx = .rolledBack tx) := by
  constructor
  · intro h
    rcases createReportTx_cases env report db with
      ⟨hb1, _⟩ | ⟨_, _, h1⟩ | ⟨_, _, _, h1⟩ | ⟨_, hi, hl, _⟩ |
      ⟨_, hi, hl, _⟩ | ⟨_, hi, hl, _⟩
    · rw [hb] at hb1; cases hb1
    · rw [h1]; exact ⟨rfl, _, rfl⟩
    · rw [h1]; exact ⟨rfl, _, rfl⟩
    · rcases h with h | h
      · rw [hi] at h; cases h
      · rw [hl] at h; cases h
    · rcases h with h | h
      · rw [hi] at h; cases h
      · rw [hl] at h; cases h
    · rcases h with h | h
      · rw [hi] at h; cases h
      · rw [hl] at h; cases h
  · intro hi hl hloop
    rcases createReportTx_cases env report db with
      ⟨hb1, _⟩ | ⟨_, hi1, _⟩ | ⟨_, _, hl1, _⟩ | ⟨_, _, _, tx1, _, h1⟩ |
      ⟨_, _, _, tx1, _, hl2, _⟩ | ⟨_, _, _, tx1, hl2, _⟩
    · rw [hb] at hb1; cases hb1
    · rw [hi] at hi1; cases hi1
    · rw [hl] at hl1; cases hl1
    · rw [h1]; exact ⟨rfl, _, rfl⟩
    · rw [hl2] at hloop; cases hloop
    · rw [hl2] at hloop; cases hloop

/-- C2 (defect of the code). On a valid request, when `INSERT INTO report`
fails and when `LastInsertId` fails, `handleCreateReport` answers 500 and the
transaction it began is left open: neither return path calls `tx.Rollback()`.
A failure of an evidence insert, in the same function, is rolled back. -/
theorem handleCreateReport_missing_rollback :
    handleCreateReport sampleValidators { insertReport := true } privateApproved {} =
      ⟨.status 500, {}, .leftOpen {}⟩ ∧
    handleCreateReport sampleValidators { lastInsertId := true } privateApproved {} =
      ⟨.status 500, { reportSeq := 2 },
        .leftOpen { report := [⟨1, "", 0, false, 0, [123, 125]⟩] }⟩ ∧
    handleCreateReport sampleValidators { insertEvidence := fun _ => true } privateApproved {} =
      ⟨.status 500, { reportSeq := 2 },
        .rolledBack { report := [⟨1, "", 0, false, 0, [123, 125]⟩] }⟩ := by
  decide

/-! ## C3: atomicity of report creation -/

theorem handleCreateReport_cases (V : Validators) (env : CreateEnv) (req : CreateRequest)
    (db : DB) :
    handleCreateReport V env req db = ⟨.status 500, db, .notBegun⟩ ∨
    handleCreateReport V env req db = ⟨.status 400, db, .notBegun⟩ ∨
    ∃ report, handleCreateReport V env req db = createReportTx env report db := by
  unfold handleCreateReport
  split
  · left; rfl
  · split
    · right; left; rfl
    · split
      · right; left; rfl
      · split
        · right; left; rfl
        · right; right; exact ⟨_, rfl⟩

/-- C3. Report creation is atomic on the committed tables. A 400 answer comes
with no transaction begun and the database untouched; a 500 answer whose
transaction did not reach a failing commit leaves the `report`, `evidence` and
`media_file` tables as they were; and a body that does not decode, or a struct
that fails validation, is answered 400 before any transaction is begun. -/
theorem handleCreateReport_atomic (V : Validators) (env : CreateEnv) (req : CreateRequest)
    (db : DB) :
    ((handleCreateReport V env req db).resp = .status 400 →
      (handleCreateReport V env req db).tx = .notBegun ∧
      (handleCreateReport V env req db).db = db) ∧
    ((handleCreateReport V env req db).resp = .status 500 →
      (∀ tx, (handleCreateReport V env req db).tx ≠ .commitFailed tx) →
      (handleCreateReport V env req db).db.report = db.report ∧
      (handleCreateReport V env req db).db.evidence = db.evidence ∧
      (handleCreateReport V env req db).db.media_file = db.media_file) ∧
    (env.readBody = false →
      (req.json.bind (fun j => unmarshalReport j { Public := true }) = none ∨
       ∃ decoded, req.json.bind (fun j => unmarshalReport j { Public := true }) = some decoded ∧
         (V.structReport decoded = false ∨
          decoded.Evidences.all (fun e => validateMetadata V e.Metadata) = false)) →
      handleCreateReport V env req db = ⟨.status 400, db, .notBegun⟩) := by
  refine ⟨?_, ?_, ?_⟩
  · intro h400
    rcases handleCreateReport_cases V env req db with h | h | ⟨report, h⟩
    · rw [h] at h400; simp at h400
    · rw [h]; exact ⟨rfl, rfl⟩
    · rw [h] at h400
      rcases createReportTx_cases env report db with
        ⟨_, h⟩ | ⟨_, _, h⟩ | ⟨_, _, _, h⟩ | ⟨_, _, _, tx1, _, h⟩ |
        ⟨_, _, _, tx1, applied, _, _, h⟩ | ⟨_, _, _, tx1, _, _, h⟩ <;>
      · rw [h] at h400; simp at h400
  · intro h500 hc
    rcases handleCreateReport_cases V env req db with h | h | ⟨report, h⟩
    · rw [h]; exact ⟨rfl, rfl, rfl⟩
    · rw [h]; exact ⟨rfl, rfl, rfl⟩
    · rw [h] at h500 hc ⊢
      rcases createReportTx_cases env report db with
        ⟨_, h⟩ | ⟨_, _, h⟩ | ⟨_, _, _, h⟩ | ⟨_, _, _, tx1, _, h⟩ |
        ⟨_, _, _, tx1, applied, _, _, h⟩ | ⟨_, _, _, tx1, _, _, h⟩
      · rw [h]; exact ⟨rfl, rfl, rfl⟩
      · rw [h]; exact ⟨rfl, rfl, rfl⟩
      · rw [h]; exact ⟨rfl, rfl, rfl⟩
      · rw [h]; exact ⟨rfl, rfl, rfl⟩
      · rw [h] at hc; exact absurd rfl (hc tx1)
      · rw [h] at h500; simp at h500
  · intro hread hbad
    unfold handleCreateReport
    rcases hbad with hnone | ⟨decoded, hsome, hv | hm⟩
    · simp [hread, hnone]
    · simp [hread, hsome, hv]
    · simp [hread, hsome, hm]

/-- Witness of C3: the insert of the second of three evidence associations
fails. The answer is 500, the transaction, which held the report row and the
first association, is rolled back, and the tables are as before. -/
theorem handleCreateReport_atomic_witness :
    ((handleCreateReport sampleValidators secondInsertFails threeEvidences oneReportDB).resp
        = .status 500 ∧
     (handleCreateReport sampleValidators secondInsertFails threeEvidences oneReportDB).tx
        = .rolledBack { report := [⟨2, "", 0, true, 1, [123, 125]⟩],
                        evidence := [⟨2, e1, "", 0⟩] }) ∧
    (handleCreateReport sampleValidators secondInsertFails threeEvidences oneReportDB).db.report
      = oneReportDB.report ∧
    (handleCreateReport sampleValidators secondInsertFails threeEvidences oneReportDB).db.evidence
      = oneReportDB.evidence ∧
    (handleCreateReport sampleValidators secondInsertFails threeEvidences
      oneReportDB).db.media_file = oneReportDB.media_file :=
  ⟨by decide,
    (handleCreateReport_atomic sampleValidators secondInsertFails threeEvidences
      oneReportDB).2.1 (by decide)
      (fun tx h => by
        have e : (handleCreateReport sampleValidators secondInsertFails threeEvidences
            oneReportDB).tx = .rolledBack { report := [⟨2, "", 0, true, 1, [123, 125]⟩],
                                            evidence := [⟨2, e1, "", 0⟩] } := by decide
        rw [e] at h
        cases h)⟩

/-! ## C4: the state copied into a new association -/

theorem evidenceLoop_cons (env : CreateEnv) (db : DB) (rid : Nat) (e : Evidence)
    (rest : List Evidence) (i : Nat) (tx : Tx) :
    evidenceLoop env db rid (e :: rest) i tx =
      if env.getEvidence i = true ∨ env.insertEvidence i = true then (false, tx)
      else evidenceLoop env db rid rest (i + 1)
        (tx.insertIgnoreEvidence db
          ⟨rid, e.Name, pathExt e.Path, (db.evidenceState e.Name).getD 0⟩) := by
  simp only [evidenceLoop, getEvidence, queryRowEvidence, DB.evidenceState, NotFound]
  cases hq : env.getEvidence i
  · cases hfind : db.evidence.find? (fun r => r.uid = e.Name) with
    | none => cases hi : env.insertEvidence i <;> simp
    | some row => cases hi : env.insertEvidence i <;> simp
  · simp

theorem insertIgnoreEvidence_mem (tx : Tx) (db : DB) (row r : EvidenceRow)
    (h : r ∈ (tx.insertIgnoreEvidence db row).evidence) : r ∈ tx.evidence ∨ r = row := by
  unfold Tx.insertIgnoreEvidence at h
  split at h
  · left; exact h
  · simp only [List.mem_append, List.mem_singleton] at h
    exact h

theorem insertIgnoreEvidence_mono (tx : Tx) (db : DB) (row r : EvidenceRow)
    (h : r ∈ tx.evidence) : r ∈ (tx.insertIgnoreEvidence db row).evidence := by
  unfold Tx.insertIgnoreEvidence
  split
  · exact h
  · simp only [List.mem_append, List.mem_singleton]
    left; exact h

theorem insertIgnoreEvidence_key (tx : Tx) (db : DB) (row : EvidenceRow) :
    ∃ r ∈ db.evidence ++ (tx.insertIgnoreEvidence db row).evidence,
      r.reportId = row.reportId ∧ r.uid = row.uid := by
  unfold Tx.insertIgnoreEvidence
  split
  · rename_i h
    simp only [List.any_eq_true, EvidenceRow.sameKey, Bool.and_eq_true, beq_iff_eq] at h
    obtain ⟨r, hr, h1, h2⟩ := h
    exact ⟨r, hr, h1, h2⟩
  · exact ⟨row, by simp, rfl, rfl⟩

theorem evidenceLoop_rows (env : CreateEnv) (db : DB) (rid : Nat) (es : List Evidence) :
    ∀ (i : Nat) (tx : Tx), ∀ row ∈ (evidenceLoop env db rid es i tx).2.evidence,
      row ∈ tx.evidence ∨
      (row.reportId = rid ∧ row.state = (db.evidenceState row.uid).getD 0 ∧
        ∃ e ∈ es, row.uid = e.Name ∧ row.fileExt = pathExt e.Path) := by
  induction es with
  | nil => intro i tx row h; left; exact h
  | cons e rest ih =>
    intro i tx row h
    rw [evidenceLoop_cons] at h
    split at h
    · left; exact h
    · rcases ih _ _ row h with h1 | ⟨h1, h2, e', he', h3⟩
      · rcases insertIgnoreEvidence_mem _ _ _ _ h1 with h2 | h2
        · left; exact h2
        · right
          subst h2
          exact ⟨rfl, rfl, e, List.mem_cons_self _ _, rfl, rfl⟩
      · right
        exact ⟨h1, h2, e', List.mem_cons_of_mem _ he', h3⟩

theorem evidenceLoop_mono (env : CreateEnv) (db : DB) (rid : Nat) (es : List Evidence) :
    ∀ (i : Nat) (tx : Tx), ∀ row ∈ tx.evidence,
      row ∈ (evidenceLoop env db rid es i tx).2.evidence := by
  induction es with
  | nil => intro i tx row h; exact h
  | cons e rest ih =>
    intro i tx row h
    rw [evidenceLoop_cons]
    split
    · exact h
    · exact ih _ _ row (insertIgnoreEvidence_mono _ _ _ _ h)

theorem evidenceLoop_keys (env : CreateEnv) (db : DB) (rid : Nat) (es : List Evidence) :
    ∀ (i : Nat) (tx : Tx), (evidenceLoop env db rid es i tx).1 = true →
      ∀ e ∈ es, ∃ row ∈ db.evidence ++ (evidenceLoop env db rid es i tx).2.evidence,
        row.reportId = rid ∧ row.uid = e.Name := by
  induction es with
  | nil => intro i tx _ e he; cases he
  | cons e rest ih =>
    intro i tx hok e' he'
    rw [evidenceLoop_cons] at hok ⊢
    split at hok
    · cases hok
    · rename_i hcond
      rw [if_neg hcond]
      rcases List.mem_cons.mp he' with rfl | hmem
      · obtain ⟨r, hr, h1, h2⟩ := insertIgnoreEvidence_key tx db
          ⟨rid, e'.Name, pathExt e'.Path, (db.evidenceState e'.Name).getD 0⟩
        refine ⟨r, ?_, h1, h2⟩
        rcases List.mem_append.mp hr with h | h
        · exact List.mem_append.mpr (Or.inl h)
        · exact List.mem_append.mpr (Or.inr (evidenceLoop_mono _ _ _ _ _ _ r h))
      · exact ih _ _ hok e' hmem


theorem find?_map_setState (rows : List EvidenceRow) (uid : String) (st : Int) :
    (rows.map (fun r => if r.uid = uid then { r with state := st } else r)).find?
        (fun r => r.uid = uid) =
      (rows.find? (fun r => r.uid = uid)).map (fun r => { r with state := st }) := by
  induction rows with
  | nil => rfl
  | cons r rest ih =>
    by_cases h : r.uid = uid
    · simp [List.find?, h]
    · simp only [List.map_cons, h, if_false, List.find?, decide_False]
      exact ih

theorem execUpdateEvidence_state (db : DB) (st : Int) (uid : String) :
    (execUpdateEvidence db st uid).1.evidenceState uid =
      (db.evidenceState uid).map (fun _ => st) := by
  simp only [execUpdateEvidence, DB.evidenceState, find?_map_setState, Option.map_map]
  rfl

theorem execUpdateEvidence_changed (db : DB) (st : Int) (uid : String)
    (h : (execUpdateEvidence db st uid).2 ≠ 0) : ∃ s, db.evidenceState uid = some s := by
  simp only [execUpdateEvidence, ne_eq, List.length_eq_zero] at h
  obtain ⟨r, hr⟩ := List.exists_mem_of_ne_nil _ h
  simp only [List.mem_filter, decide_eq_true_eq] at hr
  cases hfind : db.evidence.find? (fun r => r.uid = uid) with
  | none =>
    have := List.find?_eq_none.mp hfind r hr.1
    simp [hr.2.1] at this
  | some r0 => exact ⟨r0.state, by simp [DB.evidenceState, hfind]⟩

/-- A done call answered 200 leaves the record of the identifier at state 20. -/
theorem handleDone_ok_state (V : Validators) (f : DoneFaults) (name : String) (db : DB)
    (h : (handleDone V f name db).2 = .status 200) :
    (handleDone V f name db).1.evidenceState name = some 20 := by
  unfold handleDone at h ⊢
  split at h
  · simp at h
  · split at h
    · simp at h
    · split at h
      · simp at h
      · split at h
        · simp at h
        · rename_i h1 h2 h3 h4
          rw [if_neg h1, if_neg h2, if_neg h3, if_neg h4]
          show (execUpdateEvidence db 20 name).1.evidenceState name = some 20
          rw [execUpdateEvidence_state]
          obtain ⟨s, hs⟩ := execUpdateEvidence_changed db 20 name h4
          rw [hs]; rfl

/-- C4. For a report created with a 200 answer, in a database whose evidence
rows carry report ids below the auto-increment counter: the committed evidence
table is the old one followed by the rows the transaction wrote; each such row
belongs to the new report, comes from an evidence entry (its name, the
extension of its path), and carries the state of the first existing row of the
same identifier, 0 when there is none; every evidence entry has such a row;
and when the database is the result of a done call on `name` answered 200, an
entry named `name` gets a row in state 20. -/
theorem handleCreateReport_association_state (V : Validators) (env : CreateEnv)
    (req : CreateRequest) (db : DB) (data : Report)
    (hfresh : ∀ row ∈ db.evidence, row.reportId < db.reportSeq)
    (hok : (handleCreateReport V env req db).resp = .json (.report data)) :
    (handleCreateReport V env req db).db.evidence =
      db.evidence ++ (handleCreateReport V env req db).tx.written.evidence ∧
    (∀ row ∈ (handleCreateReport V env req db).tx.written.evidence,
      row.reportId = db.reportSeq ∧
      (∃ e ∈ data.Evidences, row.uid = e.Name ∧ row.fileExt = pathExt e.Path) ∧
      row.state = (db.evidenceState row.uid).getD 0) ∧
    (∀ e ∈ data.Evidences, ∃ row ∈ (handleCreateReport V env req db).tx.written.evidence,
      row.reportId = db.reportSeq ∧ row.uid = e.Name ∧
      row.state = (db.evidenceState e.Name).getD 0) ∧
    (∀ (f : DoneFaults) (name : String) (db0 : DB), db = (handleDone V f name db0).1 →
      (handleDone V f name db0).2 = .status 200 →
      ∀ e ∈ data.Evidences, e.Name = name →
        ∃ row ∈ (handleCreateReport V env req db).tx.written.evidence,
          row.reportId = db.reportSeq ∧ row.uid = name ∧ row.state = 20) := by
  have key : ∃ tx1, evidenceLoop env db.bumpReportSeq db.reportSeq data.Evidences 0
        { report := [reportRowOf db data] } = (true, tx1) ∧
      handleCreateReport V env req db =
        ⟨.json (.report data), db.bumpReportSeq.commit tx1, .committed tx1⟩ := by
    rcases handleCreateReport_cases V env req db with h | h | ⟨report, h⟩
    · rw [h] at hok; simp at hok
    · rw [h] at hok; simp at hok
    · rw [h] at hok ⊢
      rcases createReportTx_cases env report db with
        ⟨_, h⟩ | ⟨_, _, h⟩ | ⟨_, _, _, h⟩ | ⟨_, _, _, tx1, _, h⟩ |
        ⟨_, _, _, tx1, applied, _, _, h⟩ | ⟨_, _, _, tx1, hloop, _, h⟩
      · rw [h] at hok; simp at hok
      · rw [h] at hok; simp at hok
      · rw [h] at hok; simp at hok
      · rw [h] at hok; simp at hok
      · rw [h] at hok; simp at hok
      · rw [h] at hok
        simp only [Response.json.injEq, Body.report.injEq] at hok
        subst hok
        exact ⟨tx1, hloop, h⟩
  obtain ⟨tx1, hloop, hres⟩ := key
  have hrows := evidenceLoop_rows env db.bumpReportSeq db.reportSeq data.Evidences 0
    { report := [reportRowOf db data] }
  have hkeys := evidenceLoop_keys env db.bumpReportSeq db.reportSeq data.Evidences 0
    { report := [reportRowOf db data] }
  rw [hloop] at hrows hkeys
  have hwritten : ∀ row ∈ tx1.evidence,
      row.reportId = db.reportSeq ∧
      (∃ e ∈ data.Evidences, row.uid = e.Name ∧ row.fileExt = pathExt e.Path) ∧
      row.state = (db.evidenceState row.uid).getD 0 := by
    intro row hrow
    rcases hrows row hrow with h | ⟨h1, h2, h3⟩
    · cases h
    · exact ⟨h1, h3, h2⟩
  have hentry : ∀ e ∈ data.Evidences, ∃ row ∈ tx1.evidence,
      row.reportId = db.reportSeq ∧ row.uid = e.Name ∧
      row.state = (db.evidenceState e.Name).getD 0 := by
    intro e he
    obtain ⟨row, hrow, h1, h2⟩ := hkeys rfl e he
    rcases List.mem_append.mp hrow with h | h
    · have := hfresh row h
      omega
    · refine ⟨row, h, h1, h2, ?_⟩
      rw [← h2]
      exact (hwritten row h).2.2
  rw [hres]
  refine ⟨rfl, hwritten, hentry, ?_⟩
  intro f name db0 hdb hdone e he hname
  obtain ⟨row, hrow, h1, h2, h3⟩ := hentry e he
  refine ⟨row, hrow, h1, h2.trans hname, ?_⟩
  rw [h3, hname, hdb, handleDone_ok_state V f name db0 hdone]
  rfl

/-- Witness of C4: two reports reference `e1`, done on `e1` answers 200, and a
third report referencing `e1` gets its association in state 20. -/
theorem handleCreateReport_association_state_witness :
    ((∀ row ∈ afterDoneDB.evidence, row.reportId < afterDoneDB.reportSeq) ∧
     (handleCreateReport sampleValidators {} privateApproved afterDoneDB).resp =
       .json (.report (normalizeReport {} privateApproved.body privateApprovedDecoded)) ∧
     (handleDone sampleValidators {} e1 twoReportsDB).2 = .status 200 ∧
     twoReportsDB.evidence = [⟨1, e1, ".jpg", 0⟩, ⟨2, e1, ".jpg", 0⟩]) ∧
    ∃ row ∈ (handleCreateReport sampleValidators {} privateApproved
        afterDoneDB).tx.written.evidence,
      row.reportId = afterDoneDB.reportSeq ∧ row.uid = e1 ∧ row.state = 20 :=
  ⟨⟨by decide, by decide, by decide, by decide⟩,
    (handleCreateReport_association_state sampleValidators {} privateApproved afterDoneDB
      (normalizeReport {} privateApproved.body privateApprovedDecoded)
      (by decide) (by decide)).2.2.2 {} e1 twoReportsDB rfl (by decide)
      { Name := e1, Path := "6ba7b810-9dad-11d1-80b4-00c04fd430c8.jpg" } (by decide) rfl⟩

/-! ## What each handler leaves unchanged -/

theorem handleUpload_db (V : Validators) (f : UploadFaults) (name : String) (body : List Nat)
    (s : Sys) : (handleUpload V f name body s).1.db = s.db := by
  unfold handleUpload
  split
  · rfl
  · split
    · rfl
    · split
      · rfl
      · split <;> rfl

theorem handleMediaUpload_db (V : Validators) (f : UploadFaults) (uid : String)
    (body : List Nat) (s : Sys) : (handleMediaUpload V f uid body s).1.db = s.db := by
  unfold handleMediaUpload
  split
  · rfl
  · split
    · rfl
    · split
      · rfl
      · split <;> rfl

theorem execInsertMediaFile_evidence (db : DB) (now : Int) (m : MediaFile) :
    (execInsertMediaFile db now m).evidence = db.evidence := by
  unfold execInsertMediaFile
  split <;> rfl

theorem registerLoop_evidence (env : RegisterEnv) (ms : List MediaFile) :
    ∀ (i : Nat) (db : DB), (registerLoop env ms i db).2.evidence = db.evidence := by
  induction ms with
  | nil => intro i db; rfl
  | cons m rest ih =>
    intro i db
    simp only [registerLoop]
    split
    · rfl
    · rw [ih, execInsertMediaFile_evidence]

theorem handleRegisterFormMediaFiles_evidence (V : Validators) (env : RegisterEnv)
    (req : RegisterRequest) (db : DB) :
    (handleRegisterFormMediaFiles V env req db).1.evidence = db.evidence := by
  unfold handleRegisterFormMediaFiles
  split
  · rfl
  · split
    · rfl
    · split
      · rfl
      · split
        · rfl
        · rename_i registration _ _ _
          have hloop := registerLoop_evidence env registration.Attachments 0 db
          split
          · rename_i db1 h
            rw [h] at hloop
            exact hloop
          · rename_i db1 h
            rw [h] at hloop
            exact hloop

theorem handleMediaDone_evidence (V : Validators) (f : DoneFaults) (uid : String) (db : DB) :
    (handleMediaDone V f uid db).1.evidence = db.evidence := by
  unfold handleMediaDone
  split
  · rfl
  · split
    · rfl
    · split
      · rfl
      · split <;> rfl

/-- The evidence table after `handleCreateReport`: unchanged, or extended by
rows of the new report that carry the state read for their uid. -/
theorem handleCreateReport_evidence (V : Validators) (env : CreateEnv) (req : CreateRequest)
    (db : DB) :
    (handleCreateReport V env req db).db.evidence = db.evidence ∨
    ∃ added : List EvidenceRow,
      (handleCreateReport V env req db).db.evidence = db.evidence ++ added ∧
      ∀ row ∈ added, row.reportId = db.reportSeq ∧
        row.state = (db.evidenceState row.uid).getD 0 := by
  rcases handleCreateReport_cases V env req db with h | h | ⟨report, h⟩
  · left; rw [h]
  · left; rw [h]
  · rw [h]
    have hrows := evidenceLoop_rows env db.bumpReportSeq db.reportSeq report.Evidences 0
      { report := [reportRowOf db report] }
    rcases createReportTx_cases env report db with
      ⟨_, h⟩ | ⟨_, _, h⟩ | ⟨_, _, _, h⟩ | ⟨_, _, _, tx1, _, h⟩ |
      ⟨_, _, _, tx1, applied, hloop, _, h⟩ | ⟨_, _, _, tx1, hloop, _, h⟩
    · left; rw [h]
    · left; rw [h]
    · left; rw [h]; rfl
    · left; rw [h]; rfl
    · rw [h]
      rw [hloop] at hrows
      cases applied
      · left; rfl
      · right
        refine ⟨tx1.evidence, rfl, ?_⟩
        intro row hrow
        rcases hrows row hrow with h1 | ⟨h1, h2, _⟩
        · cases h1
        · exact ⟨h1, h2⟩
    · rw [h]
      rw [hloop] at hrows
      right
      refine ⟨tx1.evidence, rfl, ?_⟩
      intro row hrow
      rcases hrows row hrow with h1 | ⟨h1, h2, _⟩
      · cases h1
      · exact ⟨h1, h2⟩

theorem handleDone_evidence (V : Validators) (f : DoneFaults) (name : String) (db : DB) :
    (handleDone V f name db).1.evidence = db.evidence ∨
    (handleDone V f name db).1.evidence =
      db.evidence.map (fun r => if r.uid = name then { r with state := 20 } else r) := by
  unfold handleDone
  split
  · left; rfl
  · split
    · left; rfl
    · split
      · right; rfl
      · split <;> (right; rfl)

/-- The evidence table after one request. -/
theorem step_evidence (V : Validators) (op : Op) (s : Sys) :
    (step V op s).1.db.evidence = s.db.evidence ∨
    (∃ name, (step V op s).1.db.evidence =
      s.db.evidence.map (fun r => if r.uid = name then { r with state := 20 } else r)) ∨
    ∃ added : List EvidenceRow,
      (step V op s).1.db.evidence = s.db.evidence ++ added ∧
      ∀ row ∈ added, row.reportId = s.db.reportSeq ∧
        row.state = (s.db.evidenceState row.uid).getD 0 := by
  cases op with
  | createReport env req =>
    rcases handleCreateReport_evidence V env req s.db with h | h
    · left; exact h
    · right; right; exact h
  | registerFormMediaFiles env req =>
    left; exact handleRegisterFormMediaFiles_evidence V env req s.db
  | upload f name body =>
    left; show (handleUpload V f name body s).1.db.evidence = _; rw [handleUpload_db]
  | info f name => left; rfl
  | done f name =>
    rcases handleDone_evidence V f name s.db with h | h
    · left; exact h
    · right; left; exact ⟨name, h⟩
  | mediaUpload f uid body =>
    left; show (handleMediaUpload V f uid body s).1.db.evidence = _; rw [handleMediaUpload_db]
  | mediaInfo f uid => left; rfl
  | mediaDone f uid => left; exact handleMediaDone_evidence V f uid s.db

/-! ## C5: one state per evidence identifier -/

theorem evidenceState_of_mem (db : DB) (a : EvidenceRow) (hs : SharedState db.evidence)
    (ha : a ∈ db.evidence) : db.evidenceState a.uid = some a.state := by
  unfold DB.evidenceState
  cases hfind : db.evidence.find? (fun r => r.uid = a.uid) with
  | none =>
    have := List.find?_eq_none.mp hfind a ha
    simp at this
  | some r0 =>
    have hmem := List.mem_of_find?_eq_some hfind
    have huid := List.find?_some hfind
    simp only [decide_eq_true_eq] at huid
    simp only [Option.map_some', Option.some.injEq]
    exact hs r0 hmem a ha huid

theorem SharedState_append (db : DB) (added : List EvidenceRow)
    (hs : SharedState db.evidence)
    (hadd : ∀ row ∈ added, row.state = (db.evidenceState row.uid).getD 0) :
    SharedState (db.evidence ++ added) := by
  intro a ha b hb hab
  rcases List.mem_append.mp ha with ha | ha <;> rcases List.mem_append.mp hb with hb | hb
  · exact hs a ha b hb hab
  · rw [hadd b hb, ← hab, evidenceState_of_mem db a hs ha]; rfl
  · rw [hadd a ha, hab, evidenceState_of_mem db b hs hb]; rfl
  · rw [hadd a ha, hadd b hb, hab]

theorem SharedState_map (rows : List EvidenceRow) (name : String) (st : Int)
    (hs : SharedState rows) :
    SharedState (rows.map (fun r => if r.uid = name then { r with state := st } else r)) := by
  intro a ha b hb hab
  simp only [List.mem_map] at ha hb
  obtain ⟨a0, ha0, rfl⟩ := ha
  obtain ⟨b0, hb0, rfl⟩ := hb
  by_cases h1 : a0.uid = name <;> by_cases h2 : b0.uid = name
  · simp [h1, h2]
  · simp only [h1, h2, if_true, if_false] at hab
    exact absurd hab.symm h2
  · simp only [h1, h2, if_true, if_false] at hab
  · simp only [h1, h2, if_false] at hab ⊢
    exact hs a0 ha0 b0 hb0 hab

theorem step_sharedState (V : Validators) (op : Op) (s : Sys)
    (hs : SharedState s.db.evidence) : SharedState (step V op s).1.db.evidence := by
  rcases step_evidence V op s with h | ⟨name, h⟩ | ⟨added, h, hadd⟩
  · rw [h]; exact hs
  · rw [h]; exact SharedState_map _ name 20 hs
  · rw [h]; exact SharedState_append s.db added hs (fun row hrow => (hadd row hrow).2)

theorem run_sharedState (V : Validators) (ops : List Op) :
    ∀ s : Sys, SharedState s.db.evidence → SharedState (run V ops s).db.evidence := by
  induction ops with
  | nil => intro s hs; exact hs
  | cons op rest ih => intro s hs; exact ih _ (step_sharedState V op s hs)

theorem getEvidence_some (db : DB) (uid : String) (ev : Evidence)
    (h : (getEvidence false db uid).1 = some ev) : db.evidenceState uid = some ev.State := by
  unfold getEvidence queryRowEvidence at h
  unfold DB.evidenceState
  simp only [Bool.false_eq_true, if_false] at h
  cases hfind : db.evidence.find? (fun r => r.uid = uid) with
  | none => rw [hfind] at h; simp at h
  | some r0 =>
    rw [hfind] at h
    simp only [Option.some.injEq] at h
    subst h
    rfl

/-- C5. Starting from an empty evidence table, after any sequence of requests
served one after the other (report creations, done calls, and any of the other
handlers), all evidence rows with the same uid have the same state, and the
evidence that `getEvidence` reads for an identifier (the first row, `LIMIT 1`)
has the state of every row of that identifier. -/
theorem evidence_shared_state (V : Validators) (ops : List Op) (s0 : Sys)
    (h0 : s0.db.evidence = []) :
    SharedState (run V ops s0).db.evidence ∧
    ∀ (name : String) (ev : Evidence),
      (getEvidence false (run V ops s0).db name).1 = some ev →
      ∀ row ∈ (run V ops s0).db.evidence, row.uid = name → row.state = ev.State := by
  have hs : SharedState (run V ops s0).db.evidence := by
    apply run_sharedState
    rw [h0]
    intro a ha
    cases ha
  refine ⟨hs, ?_⟩
  intro name ev hev row hrow huid
  have h1 := getEvidence_some _ name ev hev
  have h2 := evidenceState_of_mem _ row hs hrow
  rw [huid, h1] at h2
  simp only [Option.some.injEq] at h2
  exact h2.symm

/-- Witness of C5: two reports on `e1`, done on `e1`, a third report on `e1`;
the three rows of `e1` are all in state 20. -/
theorem evidence_shared_state_witness :
    (({} : Sys).db.evidence = [] ∧
     (run sampleValidators sharedEvidenceOps {}).db.evidence =
       [⟨1, e1, ".jpg", 20⟩, ⟨2, e1, ".jpg", 20⟩, ⟨3, e1, ".jpg", 20⟩]) ∧
    SharedState (run sampleValidators sharedEvidenceOps {}).db.evidence :=
  ⟨⟨rfl, by decide⟩, (evidence_shared_state sampleValidators sharedEvidenceOps {} rfl).1⟩

/-! ## C6: done twice -/

/-- The five ways a call of `handleDone` can end. -/
theorem handleDone_cases (V : Validators) (f : DoneFaults) (name : String) (db : DB) :
    (V.IsUUID name = false ∧ handleDone V f name db = (db, .status 400)) ∨
    (V.IsUUID name = true ∧ f.exec = true ∧ handleDone V f name db = (db, .status 500)) ∨
    (V.IsUUID name = true ∧ f.exec = false ∧ f.rowsAffected = true ∧
      handleDone V f name db = ((execUpdateEvidence db 20 name).1, .status 500)) ∨
    (V.IsUUID name = true ∧ f.exec = false ∧ f.rowsAffected = false ∧
      (execUpdateEvidence db 20 name).2 = 0 ∧
      handleDone V f name db = ((execUpdateEvidence db 20 name).1, .status 404)) ∨
    (V.IsUUID name = true ∧ f.exec = false ∧ f.rowsAffected = false ∧
      (execUpdateEvidence db 20 name).2 ≠ 0 ∧
      handleDone V f name db = ((execUpdateEvidence db 20 name).1, .status 200)) := by
  unfold handleDone
  cases hid : V.IsUUID name
  · left; exact ⟨rfl, rfl⟩
  · cases he : f.exec
    · cases hr : f.rowsAffected
      · by_cases hz : (execUpdateEvidence db 20 name).2 = 0
        · right; right; right; left
          exact ⟨rfl, rfl, rfl, hz, by simp [hz]⟩
        · right; right; right; right
          exact ⟨rfl, rfl, rfl, hz, by simp [hz]⟩
      · right; right; left
        exact ⟨rfl, rfl, rfl, rfl⟩
    · right; left
      exact ⟨rfl, rfl, rfl⟩

/-- The five ways a call of `handleMediaDone` can end. -/
theorem handleMediaDone_cases (V : Validators) (f : DoneFaults) (uid : String) (db : DB) :
    (V.IsUUID uid = false ∧ handleMediaDone V f uid db = (db, .status 400)) ∨
    (V.IsUUID uid = true ∧ f.exec = true ∧ handleMediaDone V f uid db = (db, .status 500)) ∨
    (V.IsUUID uid = true ∧ f.exec = false ∧ f.rowsAffected = true ∧
      handleMediaDone V f uid db = ((execUpdateMediaFile db 30 uid).1, .status 500)) ∨
    (V.IsUUID uid = true ∧ f.exec = false ∧ f.rowsAffected = false ∧
      (execUpdateMediaFile db 30 uid).2 = 0 ∧
      handleMediaDone V f uid db = ((execUpdateMediaFile db 30 uid).1, .status 404)) ∨
    (V.IsUUID uid = true ∧ f.exec = false ∧ f.rowsAffected = false ∧
      (execUpdateMediaFile db 30 uid).2 ≠ 0 ∧
      handleMediaDone V f uid db = ((execUpdateMediaFile db 30 uid).1, .status 200)) := by
  unfold handleMediaDone
  cases hid : V.IsUUID uid
  · left; exact ⟨rfl, rfl⟩
  · cases he : f.exec
    · cases hr : f.rowsAffected
      · by_cases hz : (execUpdateMediaFile db 30 uid).2 = 0
        · right; right; right; left
          exact ⟨rfl, rfl, rfl, hz, by simp [hz]⟩
        · right; right; right; right
          exact ⟨rfl, rfl, rfl, hz, by simp [hz]⟩
      · right; right; left
        exact ⟨rfl, rfl, rfl, rfl⟩
    · right; left
      exact ⟨rfl, rfl, rfl⟩

/-- Repeating the evidence update changes no row. -/
theorem execUpdateEvidence_again (db : DB) (st : Int) (uid : String) :
    (execUpdateEvidence (execUpdateEvidence db st uid).1 st uid).2 = 0 := by
  simp only [execUpdateEvidence, List.length_eq_zero, List.filter_eq_nil_iff, List.mem_map,
    decide_eq_true_eq, not_and, not_not]
  rintro r ⟨r0, _, rfl⟩ huid
  by_cases h : r0.uid = uid
  · simp [h]
  · simp [h] at huid

/-- Repeating the media file update changes no row. -/
theorem execUpdateMediaFile_again (db : DB) (st : Int) (uid : String) :
    (execUpdateMediaFile (execUpdateMediaFile db st uid).1 st uid).2 = 0 := by
  simp only [execUpdateMediaFile, List.length_eq_zero, List.filter_eq_nil_iff, List.mem_map,
    decide_eq_true_eq, not_and, not_not]
  rintro r ⟨r0, _, rfl⟩ huid
  by_cases h : r0.uid = uid
  · simp [h]
  · simp [h] at huid

/-- C6. For every well-formed identifier, in both variants: when a done call
answers 200, the done call that follows it on the same identifier does not
answer 200, whatever the environment does, and answers 404 when the database
executes its statement without an error. -/
theorem done_twice (V : Validators) (id : String) (db : DB) (g1 g2 : DoneFaults)
    (hid : V.IsUUID id = true) :
    ((handleDone V g1 id db).2 = .status 200 →
      (handleDone V g2 id (handleDone V g1 id db).1).2 ≠ .status 200 ∧
      (g2.exec = false → g2.rowsAffected = false →
        (handleDone V g2 id (handleDone V g1 id db).1).2 = .status 404)) ∧
    ((handleMediaDone V g1 id db).2 = .status 200 →
      (handleMediaDone V g2 id (handleMediaDone V g1 id db).1).2 ≠ .status 200 ∧
      (g2.exec = false → g2.rowsAffected = false →
        (handleMediaDone V g2 id (handleMediaDone V g1 id db).1).2 = .status 404)) := by
  constructor
  · intro h200
    have hdb : (handleDone V g1 id db).1 = (execUpdateEvidence db 20 id).1 := by
      rcases handleDone_cases V g1 id db with ⟨_, h⟩ | ⟨_, _, h⟩ | ⟨_, _, _, h⟩ |
        ⟨_, _, _, _, h⟩ | ⟨_, _, _, _, h⟩
      · rw [h] at h200; simp at h200
      · rw [h] at h200; simp at h200
      · rw [h]
      · rw [h]
      · rw [h]
    rw [hdb]
    have hz := execUpdateEvidence_again db 20 id
    rcases handleDone_cases V g2 id (execUpdateEvidence db 20 id).1 with
      ⟨h0, _⟩ | ⟨_, he, h⟩ | ⟨_, he, hr, h⟩ | ⟨_, he, hr, _, h⟩ | ⟨_, _, _, hnz, _⟩
    · rw [hid] at h0; cases h0
    · rw [h]; exact ⟨by simp, fun he2 => by rw [he] at he2; cases he2⟩
    · rw [h]; exact ⟨by simp, fun _ hr2 => by rw [hr] at hr2; cases hr2⟩
    · rw [h]; exact ⟨by simp, fun _ _ => rfl⟩
    · exact absurd hz hnz
  · intro h200
    have hdb : (handleMediaDone V g1 id db).1 = (execUpdateMediaFile db 30 id).1 := by
      rcases handleMediaDone_cases V g1 id db with ⟨_, h⟩ | ⟨_, _, h⟩ | ⟨_, _, _, h⟩ |
        ⟨_, _, _, _, h⟩ | ⟨_, _, _, _, h⟩
      · rw [h] at h200; simp at h200
      · rw [h] at h200; simp at h200
      · rw [h]
      · rw [h]
      · rw [h]
    rw [hdb]
    have hz := execUpdateMediaFile_again db 30 id
    rcases handleMediaDone_cases V g2 id (execUpdateMediaFile db 30 id).1 with
      ⟨h0, _⟩ | ⟨_, he, h⟩ | ⟨_, he, hr, h⟩ | ⟨_, he, hr, _, h⟩ | ⟨_, _, _, hnz, _⟩
    · rw [hid] at h0; cases h0
    · rw [h]; exact ⟨by simp, fun he2 => by rw [he] at he2; cases he2⟩
    · rw [h]; exact ⟨by simp, fun _ hr2 => by rw [hr] at hr2; cases hr2⟩
    · rw [h]; exact ⟨by simp, fun _ _ => rfl⟩
    · exact absurd hz hnz

/-- Witness of C6: after a report on `e1`, and after the registration of
`f1`, the first done answers 200 and the second 404. -/
theorem done_twice_witness :
    (sampleValidators.IsUUID e1 = true ∧
     (handleDone sampleValidators {} e1 reportedE1.db).2 = .status 200 ∧
     (handleMediaDone sampleValidators {} f1 registeredF1.db).2 = .status 200) ∧
    (handleDone sampleValidators {} e1
      (handleDone sampleValidators {} e1 reportedE1.db).1).2 = .status 404 ∧
    (handleMediaDone sampleValidators {} f1
      (handleMediaDone sampleValidators {} f1 registeredF1.db).1).2 = .status 404 :=
  ⟨⟨by decide, by decide, by decide⟩,
    ((done_twice sampleValidators e1 reportedE1.db {} {} (by decide)).1 (by decide)).2 rfl rfl,
    by decide⟩

/-! ## C7: no upload after finalize -/

theorem find?_map_setState_other (rows : List EvidenceRow) (name uid : String) (st : Int) :
    ((rows.map (fun r => if r.uid = name then { r with state := st } else r)).find?
        (fun r => r.uid = uid)).map (fun r => r.state) =
      ((rows.find? (fun r => r.uid = uid)).map (fun r => r.state)).map
        (fun old => if uid = name then st else old) := by
  induction rows with
  | nil => rfl
  | cons r rest ih =>
    have huid : (if r.uid = name then ({ r with state := st } : EvidenceRow) else r).uid
        = r.uid := by
      split <;> rfl
    simp only [List.map_cons, List.find?_cons, huid]
    by_cases h : r.uid = uid
    · simp only [h, decide_True, Option.map_some']
      by_cases h2 : uid = name
      · simp [h2]
      · simp [h2]
    · simp only [h, decide_False]
      exact ih

theorem evidenceState_append (db : DB) (added : List EvidenceRow) (uid : String) (st : Int)
    (h : db.evidenceState uid = some st) :
    ((db.evidence ++ added).find? (fun r => r.uid = uid)).map (fun r => r.state) = some st := by
  unfold DB.evidenceState at h
  cases hfind : db.evidence.find? (fun r => r.uid = uid) with
  | none => rw [hfind] at h; simp at h
  | some r0 =>
    rw [hfind] at h
    rw [List.find?_append, hfind]
    exact h

/-- An evidence record in state 20 stays in state 20 through any request. -/
theorem step_evidenceState_uploaded (V : Validators) (op : Op) (s : Sys) (uid : String)
    (h : s.db.evidenceState uid = some 20) :
    (step V op s).1.db.evidenceState uid = some 20 := by
  unfold DB.evidenceState
  rcases step_evidence V op s with h1 | ⟨name, h1⟩ | ⟨added, h1, _⟩
  · rw [h1]; exact h
  · rw [h1, find?_map_setState_other]
    unfold DB.evidenceState at h
    rw [h]
    simp
  · rw [h1]
    exact evidenceState_append s.db added uid 20 h

theorem run_evidenceState_uploaded (V : Validators) (ops : List Op) (uid : String) :
    ∀ s : Sys, s.db.evidenceState uid = some 20 →
      (run V ops s).db.evidenceState uid = some 20 := by
  induction ops with
  | nil => intro s h; exact h
  | cons op rest ih => intro s h; exact ih _ (step_evidenceState_uploaded V op s uid h)

theorem getEvidence_of_state (db : DB) (uid : String) (st : Int)
    (h : db.evidenceState uid = some st) :
    ∃ ev, getEvidence false db uid = (some ev, none) ∧ ev.State = st := by
  unfold DB.evidenceState at h
  unfold getEvidence queryRowEvidence
  cases hfind : db.evidence.find? (fun r => r.uid = uid) with
  | none => rw [hfind] at h; simp at h
  | some r0 =>
    rw [hfind] at h
    simp only [Option.map_some', Option.some.injEq] at h
    exact ⟨{ ReportID := r0.reportId, UID := r0.uid, State := r0.state }, rfl, h⟩

theorem getEvidence_fault (db : DB) (uid : String) :
    getEvidence true db uid = (none, some (.other "query failed")) := by
  simp [getEvidence, queryRowEvidence]

theorem handleUpload_uploaded (V : Validators) (f : UploadFaults) (name : String)
    (body : List Nat) (s : Sys) (hid : V.IsUUID name = true)
    (h : s.db.evidenceState name = some 20) :
    handleUpload V f name body s = (s, .status (if f.query then 500 else 403)) := by
  unfold handleUpload isEvidenceUploded
  cases hq : f.query
  · obtain ⟨ev, hev, hst⟩ := getEvidence_of_state s.db name 20 h
    simp [hid, hev, hst]
  · simp [hid, getEvidence_fault, NotFound]

theorem mediaFind?_map_setState (rows : List MediaFileRow) (name uid : String) (st : Int) :
    ((rows.map (fun r => if r.uid = name then { r with state := st } else r)).find?
        (fun r => r.uid = uid)).map (fun r => r.state) =
      ((rows.find? (fun r => r.uid = uid)).map (fun r => r.state)).map
        (fun old => if uid = name then st else old) := by
  induction rows with
  | nil => rfl
  | cons r rest ih =>
    have huid : (if r.uid = name then ({ r with state := st } : MediaFileRow) else r).uid
        = r.uid := by
      split <;> rfl
    simp only [List.map_cons, List.find?_cons, huid]
    by_cases h : r.uid = uid
    · simp only [h, decide_True, Option.map_some']
      by_cases h2 : uid = name
      · simp [h2]
      · simp [h2]
    · simp only [h, decide_False]
      exact ih

theorem mediaFind?_map_setUpdated (rows : List MediaFileRow) (name uid : String) (now : Int) :
    ((rows.map (fun r => if r.uid = name then { r with updated := some now } else r)).find?
        (fun r => r.uid = uid)).map (fun r => r.state) =
      (rows.find? (fun r => r.uid = uid)).map (fun r => r.state) := by
  induction rows with
  | nil => rfl
  | cons r rest ih =>
    have huid : (if r.uid = name then ({ r with updated := some now } : MediaFileRow) else r).uid
        = r.uid := by
      split <;> rfl
    have hst : (if r.uid = name then ({ r with updated := some now } : MediaFileRow)
        else r).state = r.state := by
      split <;> rfl
    simp only [List.map_cons, List.find?_cons, huid]
    by_cases h : r.uid = uid
    · simp only [h, decide_True, Option.map_some', Option.some.injEq]
      split <;> rfl
    · simp only [h, decide_False]
      exact ih

theorem execInsertMediaFile_mediaState (db : DB) (now : Int) (m : MediaFile) (uid : String)
    (st : Int) (h : db.mediaState uid = some st) :
    (execInsertMediaFile db now m).mediaState uid = some st := by
  unfold execInsertMediaFile
  split
  · simp only [DB.mediaState, mediaFind?_map_setUpdated]
    exact h
  · unfold DB.mediaState at h ⊢
    cases hfind : db.media_file.find? (fun r => r.uid = uid) with
    | none => rw [hfind] at h; simp at h
    | some r0 =>
      rw [hfind] at h
      rw [List.find?_append, hfind]
      exact h

theorem registerLoop_mediaState (env : RegisterEnv) (uid : String) (st : Int)
    (ms : List MediaFile) :
    ∀ (i : Nat) (db : DB), db.mediaState uid = some st →
      (registerLoop env ms i db).2.mediaState uid = some st := by
  induction ms with
  | nil => intro i db h; exact h
  | cons m rest ih =>
    intro i db h
    simp only [registerLoop]
    split
    · exact h
    · exact ih _ _ (execInsertMediaFile_mediaState db env.now _ uid st h)

/-- The three ways a call of `handleRegisterFormMediaFiles` can end. -/
theorem handleRegisterFormMediaFiles_cases (V : Validators) (env : RegisterEnv)
    (req : RegisterRequest) (db : DB) :
    handleRegisterFormMediaFiles V env req db = (db, .status 500) ∨
    handleRegisterFormMediaFiles V env req db = (db, .status 400) ∨
    ∃ registration, req.json = some registration ∧
      handleRegisterFormMediaFiles V env req db =
        ((registerLoop env registration.Attachments 0 db).2,
          .status (if (registerLoop env registration.Attachments 0 db).1 then 200 else 500)) := by
  unfold handleRegisterFormMediaFiles
  split
  · left; rfl
  · split
    · right; left; rfl
    · split
      · right; left; rfl
      · split
        · right; left; rfl
        · rename_i registration hjson _ _
          right; right
          refine ⟨registration, hjson, ?_⟩
          rcases registerLoop env registration.Attachments 0 db with ⟨ok, db1⟩
          cases ok <;> rfl

theorem handleCreateReport_media_file (V : Validators) (env : CreateEnv)
    (req : CreateRequest) (db : DB) :
    (handleCreateReport V env req db).db.media_file = db.media_file := by
  rcases handleCreateReport_cases V env req db with h | h | ⟨report, h⟩
  · rw [h]
  · rw [h]
  · rw [h]
    rcases createReportTx_cases env report db with
      ⟨_, h⟩ | ⟨_, _, h⟩ | ⟨_, _, _, h⟩ | ⟨_, _, _, tx1, _, h⟩ |
      ⟨_, _, _, tx1, applied, _, _, h⟩ | ⟨_, _, _, tx1, _, _, h⟩
    · rw [h]
    · rw [h]
    · rw [h]; rfl
    · rw [h]; rfl
    · rw [h]; cases applied <;> rfl
    · rw [h]; rfl

/-- A media file record in state 30 stays in state 30 through any request. -/
theorem step_mediaState_uploaded (V : Validators) (op : Op) (s : Sys) (uid : String)
    (h : s.db.mediaState uid = some 30) :
    (step V op s).1.db.mediaState uid = some 30 := by
  cases op with
  | createReport env req =>
    show (handleCreateReport V env req s.db).db.mediaState uid = some 30
    unfold DB.mediaState
    rw [handleCreateReport_media_file]
    exact h
  | registerFormMediaFiles env req =>
    show (handleRegisterFormMediaFiles V env req s.db).1.mediaState uid = some 30
    rcases handleRegisterFormMediaFiles_cases V env req s.db with h1 | h1 | ⟨reg, _, h1⟩
    · rw [h1]; exact h
    · rw [h1]; exact h
    · rw [h1]; exact registerLoop_mediaState env uid 30 _ 0 s.db h
  | upload f name body =>
    show (handleUpload V f name body s).1.db.mediaState uid = some 30
    rw [handleUpload_db]; exact h
  | info f name => exact h
  | done f name =>
    show (handleDone V f name s.db).1.mediaState uid = some 30
    rcases handleDone_cases V f name s.db with ⟨_, h1⟩ | ⟨_, _, h1⟩ | ⟨_, _, _, h1⟩ |
      ⟨_, _, _, _, h1⟩ | ⟨_, _, _, _, h1⟩ <;> rw [h1] <;> exact h
  | mediaUpload f name body =>
    show (handleMediaUpload V f name body s).1.db.mediaState uid = some 30
    rw [handleMediaUpload_db]; exact h
  | mediaInfo f name => exact h
  | mediaDone f name =>
    show (handleMediaDone V f name s.db).1.mediaState uid = some 30
    have hupd : (execUpdateMediaFile s.db 30 name).1.mediaState uid = some 30 := by
      simp only [execUpdateMediaFile, DB.mediaState, mediaFind?_map_setState]
      unfold DB.mediaState at h
      rw [h]
      simp
    rcases handleMediaDone_cases V f name s.db with ⟨_, h1⟩ | ⟨_, _, h1⟩ | ⟨_, _, _, h1⟩ |
      ⟨_, _, _, _, h1⟩ | ⟨_, _, _, _, h1⟩
    · rw [h1]; exact h
    · rw [h1]; exact h
    · rw [h1]; exact hupd
    · rw [h1]; exact hupd
    · rw [h1]; exact hupd

theorem run_mediaState_uploaded (V : Validators) (ops : List Op) (uid : String) :
    ∀ s : Sys, s.db.mediaState uid = some 30 →
      (run V ops s).db.mediaState uid = some 30 := by
  induction ops with
  | nil => intro s h; exact h
  | cons op rest ih => intro s h; exact ih _ (step_mediaState_uploaded V op s uid h)

theorem getMediaFile_of_state (db : DB) (uid : String) (st : Int)
    (h : db.mediaState uid = some st) :
    ∃ m, getMediaFile false db uid = (some m, none) ∧ m.State = st := by
  unfold DB.mediaState at h
  unfold getMediaFile queryRowMediaFile
  cases hfind : db.media_file.find? (fun r => r.uid = uid) with
  | none => rw [hfind] at h; simp at h
  | some r0 =>
    rw [hfind] at h
    simp only [Option.map_some', Option.some.injEq] at h
    exact ⟨{ ID := r0.id, UID := r0.uid, State := r0.state }, rfl, h⟩

theorem getMediaFile_fault (db : DB) (uid : String) :
    getMediaFile true db uid = (none, some (.other "query failed")) := by
  simp [getMediaFile, queryRowMediaFile]

theorem handleMediaUpload_uploaded (V : Validators) (f : UploadFaults) (uid : String)
    (body : List Nat) (s : Sys) (hid : V.IsUUID uid = true)
    (h : s.db.mediaState uid = some 30) :
    handleMediaUpload V f uid body s = (s, .status (if f.query then 500 else 403)) := by
  unfold handleMediaUpload isMediaFileUplodable
  cases hq : f.query
  · obtain ⟨m, hm, hst⟩ := getMediaFile_of_state s.db uid 30 h
    simp [hid, hm, hst]
  · simp [hid, getMediaFile_fault, NotFound]

theorem Store.size_append (files : Store) (name : String) (bytes : List Nat) :
    (files.append name bytes).size name = some ((files.size name).getD 0 + bytes.length) := by
  induction files with
  | nil => simp [Store.append, Store.size]
  | cons p rest ih =>
    obtain ⟨n, c⟩ := p
    by_cases h : n = name
    · simp [Store.append, Store.size, h]
    · simp only [Store.append, Store.size, h, if_false]
      exact ih

theorem mediaState_none_any (db : DB) (uid : String) (h : db.mediaState uid = none) :
    db.media_file.any (fun r => r.uid = uid) = false := by
  unfold DB.mediaState at h
  simp only [Option.map_eq_none'] at h
  rw [List.find?_eq_none] at h
  simp only [List.any_eq_false]
  exact h

theorem mediaState_append_new (db : DB) (row : MediaFileRow)
    (h : db.mediaState row.uid = none) :
    ((db.media_file ++ [row]).find? (fun r => r.uid = row.uid)).map (fun r => r.state)
      = some row.state := by
  unfold DB.mediaState at h
  simp only [Option.map_eq_none'] at h
  rw [List.find?_append, h]
  simp [List.find?]

/-- Registering one attachment whose uid has no record inserts it in state 10. -/
theorem register_single (V : Validators) (now : Int) (m : MediaFile) (db : DB)
    (hs : V.structRegistration { Attachments := [m] } = true)
    (hv : validateMediafile V m = true)
    (hnone : db.mediaState m.UID = none) :
    (handleRegisterFormMediaFiles V { now := now } { json := some { Attachments := [m] } } db).2
      = .status 200 ∧
    (handleRegisterFormMediaFiles V { now := now } { json := some { Attachments := [m] } }
      db).1.mediaState m.UID = some 10 := by
  have hany := mediaState_none_any db m.UID hnone
  have hloop : registerLoop { now := now } [m] 0 db =
      (true, { db with
        media_file := db.media_file ++
          [⟨db.mediaSeq, m.UID, m.FileName, pathExt m.FileName, m.Metadata, 10, m.Created,
            none⟩]
        mediaSeq := db.mediaSeq + 1 }) := by
    simp [registerLoop, execInsertMediaFile, hany]
  unfold handleRegisterFormMediaFiles
  simp only [hs, hv, List.all_cons, List.all_nil, Bool.and_true, Bool.not_true,
    Bool.false_eq_true, if_false, hloop]
  refine ⟨trivial, ?_⟩
  exact mediaState_append_new db
    ⟨db.mediaSeq, m.UID, m.FileName, pathExt m.FileName, m.Metadata, 10, m.Created, none⟩ hnone

/-- An upload to a media file whose record is not in state 30, without faults,
appends the body and answers 200. -/
theorem handleMediaUpload_accepts (V : Validators) (uid : String) (body : List Nat) (s : Sys)
    (st : Int) (hid : V.IsUUID uid = true) (h : s.db.mediaState uid = some st)
    (hst : st ≠ 30) :
    handleMediaUpload V {} uid body s =
      ({ s with files := s.files.append uid body }, .status 200) := by
  obtain ⟨m, hm, hms⟩ := getMediaFile_of_state s.db uid st h
  unfold handleMediaUpload isMediaFileUplodable
  simp [hid, hm, hms, hst, writeBody]

theorem handleMediaInfo_registered (V : Validators) (uid : String) (s : Sys) (st : Int)
    (hid : V.IsUUID uid = true) (h : s.db.mediaState uid = some st) :
    handleMediaInfo V {} uid s = .json (.mediaFileInfo uid ((s.files.size uid).getD 0)) := by
  obtain ⟨m, hm, _⟩ := getMediaFile_of_state s.db uid st h
  unfold handleMediaInfo
  simp only [hid, hm, Bool.not_true, Bool.false_eq_true, if_false, ne_eq, not_true_eq_false]
  cases s.files.size uid <;> rfl

theorem execUpdateMediaFile_state (db : DB) (st : Int) (uid : String) :
    (execUpdateMediaFile db st uid).1.mediaState uid =
      (db.mediaState uid).map (fun _ => st) := by
  simp only [execUpdateMediaFile, DB.mediaState, mediaFind?_map_setState, Option.map_map]
  cases db.media_file.find? (fun r => r.uid = uid) <;> simp

theorem execUpdateMediaFile_changes (db : DB) (st old : Int) (uid : String)
    (h : db.mediaState uid = some old) (hne : old ≠ st) :
    (execUpdateMediaFile db st uid).2 ≠ 0 := by
  unfold DB.mediaState at h
  cases hfind : db.media_file.find? (fun r => r.uid = uid) with
  | none => rw [hfind] at h; simp at h
  | some r0 =>
    rw [hfind] at h
    simp only [Option.map_some', Option.some.injEq] at h
    have hmem := List.mem_of_find?_eq_some hfind
    have huid := List.find?_some hfind
    simp only [decide_eq_true_eq] at huid
    simp only [execUpdateMediaFile, ne_eq, List.length_eq_zero]
    intro hnil
    have : r0 ∈ db.media_file.filter (fun r => r.uid = uid ∧ r.state ≠ st) := by
      simp only [List.mem_filter, decide_eq_true_eq]
      exact ⟨hmem, huid, by rw [h]; exact hne⟩
    rw [hnil] at this
    cases this

/-- A done call on a media file whose record is not in state 30, without
faults, answers 200 and leaves the record in state 30. -/
theorem handleMediaDone_accepts (V : Validators) (uid : String) (db : DB) (st : Int)
    (hid : V.IsUUID uid = true) (h : db.mediaState uid = some st) (hst : st ≠ 30) :
    (handleMediaDone V {} uid db).2 = .status 200 ∧
    (handleMediaDone V {} uid db).1.mediaState uid = some 30 := by
  have hc := execUpdateMediaFile_changes db 30 st uid h hst
  have hs := execUpdateMediaFile_state db 30 uid
  rw [h] at hs
  unfold handleMediaDone
  simp only [hid, Bool.not_true, Bool.false_eq_true, if_false, hc]
  exact ⟨trivial, hs⟩

/-- C7. For every well-formed identifier: once the evidence record is in state
20 (once the media file record is in state 30), after any further sequence of
requests an upload leaves database and files as they are and answers 403 (500
when the lifecycle query itself fails). And in the scenario "register a media
file that has no record and no file, upload `bytes`, info, done, upload `more`",
run without faults: the registration answers 200, the upload 200, info answers
200 with size `bytes.length`, done 200, and the last upload 403 with the state
unchanged. -/
theorem upload_after_finalize (V : Validators) (id : String) (hid : V.IsUUID id = true) :
    (∀ (s : Sys) (ops : List Op) (f : UploadFaults) (body : List Nat),
      s.db.evidenceState id = some 20 →
      handleUpload V f id body (run V ops s) =
        (run V ops s, .status (if f.query then 500 else 403))) ∧
    (∀ (s : Sys) (ops : List Op) (f : UploadFaults) (body : List Nat),
      s.db.mediaState id = some 30 →
      handleMediaUpload V f id body (run V ops s) =
        (run V ops s, .status (if f.query then 500 else 403))) ∧
    (∀ (m : MediaFile) (bytes more : List Nat) (s : Sys),
      m.UID = id → V.structRegistration { Attachments := [m] } = true →
      validateMediafile V m = true →
      s.db.mediaState id = none → s.files.size id = none →
      (step V (.registerFormMediaFiles {} { json := some { Attachments := [m] } }) s).2
        = .status 200 ∧
      (step V (.mediaUpload {} id bytes)
        (run V [.registerFormMediaFiles {} { json := some { Attachments := [m] } }] s)).2
        = .status 200 ∧
      (step V (.mediaInfo {} id)
        (run V [.registerFormMediaFiles {} { json := some { Attachments := [m] } },
                .mediaUpload {} id bytes] s)).2
        = .json (.mediaFileInfo id bytes.length) ∧
      (step V (.mediaDone {} id)
        (run V [.registerFormMediaFiles {} { json := some { Attachments := [m] } },
                .mediaUpload {} id bytes] s)).2
        = .status 200 ∧
      step V (.mediaUpload {} id more)
        (run V [.registerFormMediaFiles {} { json := some { Attachments := [m] } },
                .mediaUpload {} id bytes, .mediaDone {} id] s)
        = (run V [.registerFormMediaFiles {} { json := some { Attachments := [m] } },
                  .mediaUpload {} id bytes, .mediaDone {} id] s, .status 403)) := by
  refine ⟨?_, ?_, ?_⟩
  · intro s ops f body h
    exact handleUpload_uploaded V f id body _ hid (run_evidenceState_uploaded V ops id s h)
  · intro s ops f body h
    exact handleMediaUpload_uploaded V f id body _ hid (run_mediaState_uploaded V ops id s h)
  · intro m bytes more s hm hs hv hnone hfile
    subst hm
    obtain ⟨hr1, hr2⟩ := register_single V 0 m s.db hs hv hnone
    simp only [run]
    rcases hreg : step V (.registerFormMediaFiles {} { json := some { Attachments := [m] } }) s
      with ⟨s1, r1⟩
    have hr : r1 = .status 200 := by
      have := congrArg Prod.snd hreg
      exact this.symm.trans hr1
    have h1 : s1.db.mediaState m.UID = some 10 := by
      have := congrArg (fun p => p.1.db) hreg
      simp only at this
      rw [← this]
      exact hr2
    have hf1 : s1.files = s.files := by
      have := congrArg (fun p => p.1.files) hreg
      simp only at this
      rw [← this]
      rfl
    have hup : step V (.mediaUpload {} m.UID bytes) s1 =
        ({ s1 with files := s1.files.append m.UID bytes }, .status 200) :=
      handleMediaUpload_accepts V m.UID bytes s1 10 hid h1 (by decide)
    rw [hup]
    have hinfo : step V (.mediaInfo {} m.UID) { s1 with files := s1.files.append m.UID bytes } =
        ({ s1 with files := s1.files.append m.UID bytes },
          .json (.mediaFileInfo m.UID bytes.length)) := by
      show (_, handleMediaInfo V {} m.UID _) = _
      rw [handleMediaInfo_registered V m.UID { s1 with files := s1.files.append m.UID bytes }
        10 hid h1]
      simp only [Store.size_append, hf1, hfile]
      simp
    obtain ⟨hd1, hd2⟩ := handleMediaDone_accepts V m.UID s1.db 10 hid h1 (by decide)
    rcases hdone : step V (.mediaDone {} m.UID) { s1 with files := s1.files.append m.UID bytes }
      with ⟨s3, r3⟩
    have hr3 : r3 = .status 200 := by
      have := congrArg Prod.snd hdone
      exact this.symm.trans hd1
    have h3 : s3.db.mediaState m.UID = some 30 := by
      have := congrArg (fun p => p.1.db) hdone
      simp only at this
      rw [← this]
      exact hd2
    refine ⟨hr, rfl, ?_, hr3, ?_⟩
    · rw [hinfo]
    · exact handleMediaUpload_uploaded V {} m.UID more s3 hid h3


/-- Witness of C7: the scenario on `f1` with three bytes, then one more. -/
theorem upload_after_finalize_witness :
    (sampleValidators.IsUUID f1 = true ∧ mediaF1.UID = f1 ∧
     sampleValidators.structRegistration { Attachments := [mediaF1] } = true ∧
     validateMediafile sampleValidators mediaF1 = true ∧
     ({} : Sys).db.mediaState f1 = none ∧ ({} : Sys).files.size f1 = none) ∧
    ((step sampleValidators (.registerFormMediaFiles {} registerF1) {}).2 = .status 200 ∧
     (step sampleValidators (.mediaUpload {} f1 [1, 2, 3])
       (run sampleValidators [.registerFormMediaFiles {} registerF1] {})).2 = .status 200 ∧
     (step sampleValidators (.mediaInfo {} f1)
       (run sampleValidators [.registerFormMediaFiles {} registerF1,
         .mediaUpload {} f1 [1, 2, 3]] {})).2 = .json (.mediaFileInfo f1 3) ∧
     (step sampleValidators (.mediaDone {} f1)
       (run sampleValidators [.registerFormMediaFiles {} registerF1,
         .mediaUpload {} f1 [1, 2, 3]] {})).2 = .status 200 ∧
     step sampleValidators (.mediaUpload {} f1 [4])
       (run sampleValidators [.registerFormMediaFiles {} registerF1,
         .mediaUpload {} f1 [1, 2, 3], .mediaDone {} f1] {})
       = (run sampleValidators [.registerFormMediaFiles {} registerF1,
           .mediaUpload {} f1 [1, 2, 3], .mediaDone {} f1] {}, .status 403)) :=
  ⟨⟨by decide, rfl, by decide, by decide, by decide, by decide⟩,
    (upload_after_finalize sampleValidators f1 (by decide)).2.2 mediaF1 [1, 2, 3] [4] {} rfl
      (by decide) (by decide) (by decide) (by decide)⟩

/-! ## The unassigned sentinel `NotFound`

`NotFound` is `nil`, so a lookup that finds no row returns `(nil, nil)` and
the test `err != nil` of the callers does not fire. -/

theorem getEvidence_missing (db : DB) (uid : String) (h : db.evidenceState uid = none) :
    getEvidence false db uid = (none, none) := by
  unfold DB.evidenceState at h
  simp only [Option.map_eq_none'] at h
  simp [getEvidence, queryRowEvidence, h, NotFound]

theorem getMediaFile_missing (db : DB) (uid : String) (h : db.mediaState uid = none) :
    getMediaFile false db uid = (none, none) := by
  unfold DB.mediaState at h
  simp only [Option.map_eq_none'] at h
  simp [getMediaFile, queryRowMediaFile, h, NotFound]

/-- An evidence upload to an identifier without a record panics; nothing is
written. -/
theorem handleUpload_missing (V : Validators) (f : UploadFaults) (name : String)
    (body : List Nat) (s : Sys) (hid : V.IsUUID name = true) (hq : f.query = false)
    (h : s.db.evidenceState name = none) :
    handleUpload V f name body s = (s, .panicked) := by
  unfold handleUpload isEvidenceUploded
  simp [hid, hq, getEvidence_missing s.db name h]

/-- A media upload to an identifier without a record panics; nothing is
written. -/
theorem handleMediaUpload_missing (V : Validators) (f : UploadFaults) (uid : String)
    (body : List Nat) (s : Sys) (hid : V.IsUUID uid = true) (hq : f.query = false)
    (h : s.db.mediaState uid = none) :
    handleMediaUpload V f uid body s = (s, .panicked) := by
  unfold handleMediaUpload isMediaFileUplodable
  simp [hid, hq, getMediaFile_missing s.db uid h]

/-- Media info on an identifier without a record does not answer 404: it
answers 200 with the size of the file, 0 when there is none. -/
theorem handleMediaInfo_missing (V : Validators) (f : InfoFaults) (uid : String) (s : Sys)
    (hid : V.IsUUID uid = true) (hq : f.query = false) (hstat : f.stat = false)
    (h : s.db.mediaState uid = none) :
    handleMediaInfo V f uid s = .json (.mediaFileInfo uid ((s.files.size uid).getD 0)) := by
  unfold handleMediaInfo
  simp only [hid, hq, hstat, getMediaFile_missing s.db uid h, Bool.not_true,
    Bool.false_eq_true, if_false, ne_eq, not_true_eq_false]
  cases s.files.size uid <;> rfl

/-! ## C8: uploads and the lifecycle record -/

/-- C8 (defect of the code). In a system with no record at all, an upload to a
well-formed identifier is not answered 403 in either variant: the handler
panics, so no response is sent; nothing is written. `getEvidence` and
`getMediaFile` return `(nil, NotFound)` with `NotFound` equal to `nil`, so
`isEvidenceUploded` and `isMediaFileUplodable` pass their test `err != nil`
and read the state through the `nil` pointer, before the `return false, nil`
that `handleMediaUpload` would answer with 403. -/
theorem upload_without_record_panics :
    sampleValidators.IsUUID e1 = true ∧
    ({} : Sys).db.evidenceState e1 = none ∧ ({} : Sys).db.mediaState e1 = none ∧
    handleUpload sampleValidators {} e1 [1, 2, 3] {} = ({}, .panicked) ∧
    handleMediaUpload sampleValidators {} e1 [1, 2, 3] {} = ({}, .panicked) ∧
    (handleUpload sampleValidators {} e1 [1, 2, 3] {}).2.code ≠ some 403 ∧
    (handleMediaUpload sampleValidators {} e1 [1, 2, 3] {}).2.code ≠ some 403 ∧
    (handleMediaUpload sampleValidators {} e1 [1, 2, 3] {}).2.code ≠ some 200 ∧
    (handleMediaUpload sampleValidators {} e1 [1, 2, 3] {}).1.files = [] := by
  decide

theorem Store.content_append (files : Store) (name : String) (bytes : List Nat) :
    (files.append name bytes).content name =
      some ((files.content name).getD [] ++ bytes) := by
  induction files with
  | nil => simp [Store.append, Store.content]
  | cons p rest ih =>
    obtain ⟨n, c⟩ := p
    by_cases h : n = name
    · simp [Store.append, Store.content, h]
    · simp only [Store.append, Store.content, h, if_false]
      exact ih

/-- Uploads and the record of the identifier. In both variants, for a
well-formed identifier and a lifecycle query that succeeds: when the
identifier has a record, an upload is
answered 403 and changes nothing if the record is in the UPLOADED state (20
for evidence, 30 for a media file), and otherwise the body is written to the
file of the identifier, which without I/O faults appends it to the content and
answers 200; and an upload is answered 200 only when the record is not in the
UPLOADED state, in the media variant only when a record exists. -/
theorem upload_with_record (V : Validators) (id : String) (s : Sys) (f : UploadFaults)
    (body : List Nat) (hid : V.IsUUID id = true) (hq : f.query = false) :
    (∀ st, s.db.evidenceState id = some st →
      handleUpload V f id body s =
        if st = 20 then (s, .status 403)
        else ({ s with files := (writeBody f id body s.files).1 },
          (writeBody f id body s.files).2)) ∧
    (∀ st, s.db.mediaState id = some st →
      handleMediaUpload V f id body s =
        if st = 30 then (s, .status 403)
        else ({ s with files := (writeBody f id body s.files).1 },
          (writeBody f id body s.files).2)) ∧
    (writeBody {} id body s.files = (s.files.append id body, .status 200) ∧
      (s.files.append id body).content id = some ((s.files.content id).getD [] ++ body)) ∧
    ((handleUpload V f id body s).2 = .status 200 → s.db.evidenceState id ≠ some 20) ∧
    ((handleMediaUpload V f id body s).2 = .status 200 →
      ∃ st, s.db.mediaState id = some st ∧ st ≠ 30) := by
  have hev : ∀ st, s.db.evidenceState id = some st →
      handleUpload V f id body s =
        if st = 20 then (s, .status 403)
        else ({ s with files := (writeBody f id body s.files).1 },
          (writeBody f id body s.files).2) := by
    intro st h
    obtain ⟨ev, hev, hst⟩ := getEvidence_of_state s.db id st h
    unfold handleUpload isEvidenceUploded
    by_cases h20 : st = 20
    · simp [hid, hq, hev, hst, h20]
    · simp [hid, hq, hev, hst, h20]
  have hmf : ∀ st, s.db.mediaState id = some st →
      handleMediaUpload V f id body s =
        if st = 30 then (s, .status 403)
        else ({ s with files := (writeBody f id body s.files).1 },
          (writeBody f id body s.files).2) := by
    intro st h
    obtain ⟨m, hm, hst⟩ := getMediaFile_of_state s.db id st h
    unfold handleMediaUpload isMediaFileUplodable
    by_cases h30 : st = 30
    · simp [hid, hq, hm, hst, h30]
    · simp [hid, hq, hm, hst, h30]
  refine ⟨hev, hmf, ⟨rfl, Store.content_append s.files id body⟩, ?_, ?_⟩
  · intro h200 h20
    rw [hev 20 h20] at h200
    simp at h200
  · intro h200
    cases hst : s.db.mediaState id with
    | none =>
      rw [handleMediaUpload_missing V f id body s hid hq hst] at h200
      simp at h200
    | some st =>
      refine ⟨st, rfl, ?_⟩
      intro h30
      rw [hmf st hst, if_pos h30] at h200
      simp at h200

/-- An instance of `upload_with_record`: after a report on `e1` an upload to
`e1` appends the body and answers 200. -/
theorem upload_with_record_witness :
    (sampleValidators.IsUUID e1 = true ∧ reportedE1.db.evidenceState e1 = some 0) ∧
    handleUpload sampleValidators {} e1 [1, 2, 3] reportedE1 =
      ({ reportedE1 with files := [(e1, [1, 2, 3])] }, .status 200) :=
  ⟨⟨by decide, by decide⟩,
    (upload_with_record sampleValidators e1 reportedE1 {} [1, 2, 3] (by decide) rfl).1 0
      (by decide)⟩

/-! ## C9: info on an identifier without a record -/

/-- Evidence info on a well-formed identifier, absent a stat fault, is decided
by the file alone. -/
theorem handleInfo_stat (V : Validators) (name : String) (s : Sys) (f : InfoFaults)
    (hid : V.IsUUID name = true) (hstat : f.stat = false) :
    handleInfo V f name s =
      match s.files.size name with
      | none => .status 404
      | some size => .json (.fileInfo name size) := by
  unfold handleInfo
  simp [hid, hstat]

/-- C9 as stated fails. With no record at all and a file named `e1` in the
directory, evidence info on `e1` answers 200 with the size; after the
registration of media file `f1` and an upload to it, evidence info on `f1`,
which has no evidence record, answers 200 too; and media info on an identifier
that has no media file record answers 200, with size 0 when there is no file. -/
theorem info_without_record_counterexample :
    sampleValidators.IsUUID e1 = true ∧
    strayFile.db.evidenceState e1 = none ∧ strayFile.db.mediaState e1 = none ∧
    handleInfo sampleValidators {} e1 strayFile = .json (.fileInfo e1 3) ∧
    uploadedF1.db.evidenceState f1 = none ∧
    handleInfo sampleValidators {} f1 uploadedF1 = .json (.fileInfo f1 3) ∧
    handleMediaInfo sampleValidators {} e1 strayFile = .json (.mediaFileInfo e1 3) ∧
    handleMediaInfo sampleValidators {} e1 {} = .json (.mediaFileInfo e1 0) ∧
    (handleInfo sampleValidators {} e1 strayFile).code ≠ some 404 ∧
    (handleMediaInfo sampleValidators {} e1 {}).code ≠ some 404 := by
  decide

/-- C9 (amended). Evidence info does not read the lifecycle tables: for every
well-formed identifier, when `os.Stat` fails for no reason other than a missing
file, `handleInfo` answers 404 when the directory has no file of that name and
200 with name and size when it has one, whatever the database holds. -/
theorem handleInfo_by_file (V : Validators) (name : String) (s : Sys) (f : InfoFaults)
    (hid : V.IsUUID name = true) (hstat : f.stat = false) :
    (s.files.size name = none → handleInfo V f name s = .status 404) ∧
    (∀ n, s.files.size name = some n → handleInfo V f name s = .json (.fileInfo name n)) ∧
    (∀ db : DB, handleInfo V f name { s with db := db } = handleInfo V f name s) := by
  refine ⟨?_, ?_, ?_⟩
  · intro h
    rw [handleInfo_stat V name s f hid hstat, h]
  · intro n h
    rw [handleInfo_stat V name s f hid hstat, h]
  · intro db
    rfl

/-- Witness of C9 (amended): with no file, 404; the database does not matter. -/
theorem handleInfo_by_file_witness :
    (sampleValidators.IsUUID e1 = true ∧ reportedE1.files.size e1 = none) ∧
    handleInfo sampleValidators {} e1 reportedE1 = .status 404 :=
  ⟨⟨by decide, by decide⟩,
    (handleInfo_by_file sampleValidators e1 reportedE1 {} (by decide) rfl).1 (by decide)⟩

/-! ## C10: info on an identifier with a record -/

/-- C10 as stated fails: after a report that references `e1` the evidence
record of `e1` exists and no file does; evidence info on `e1` answers 404, not
200 with size 0. -/
theorem info_with_record_counterexample :
    sampleValidators.IsUUID e1 = true ∧
    reportedE1.db.evidenceState e1 = some 0 ∧ reportedE1.files.size e1 = none ∧
    handleInfo sampleValidators {} e1 reportedE1 = .status 404 ∧
    (handleInfo sampleValidators {} e1 reportedE1).code ≠ some 200 := by
  decide

/-- C10 (amended). For every well-formed identifier that has a lifecycle
record, when neither the lifecycle query nor `os.Stat` fails: media info
answers 200 with the uid and the size of the file, 0 when there is no file;
evidence info answers 200 with the name and the size of the file when there is
one, and 404 when there is none. -/
theorem info_with_record (V : Validators) (id : String) (s : Sys) (f : InfoFaults) (st : Int)
    (hid : V.IsUUID id = true) (hq : f.query = false) (hstat : f.stat = false) :
    (s.db.mediaState id = some st →
      handleMediaInfo V f id s = .json (.mediaFileInfo id ((s.files.size id).getD 0))) ∧
    (s.db.evidenceState id = some st →
      (∀ n, s.files.size id = some n → handleInfo V f id s = .json (.fileInfo id n)) ∧
      (s.files.size id = none → handleInfo V f id s = .status 404)) := by
  constructor
  · intro h
    obtain ⟨m, hm, _⟩ := getMediaFile_of_state s.db id st h
    unfold handleMediaInfo
    simp only [hid, hq, hstat, hm, Bool.not_true, Bool.false_eq_true, if_false, ne_eq,
      not_true_eq_false]
    cases s.files.size id <;> rfl
  · intro _
    constructor
    · intro n h
      rw [handleInfo_stat V id s f hid hstat, h]
    · intro h
      rw [handleInfo_stat V id s f hid hstat, h]

/-- Witness of C10 (amended): after registration of `f1` and an upload of
three bytes, media info answers size 3. -/
theorem info_with_record_witness :
    (sampleValidators.IsUUID f1 = true ∧ uploadedF1.db.mediaState f1 = some 10) ∧
    handleMediaInfo sampleValidators {} f1 uploadedF1 = .json (.mediaFileInfo f1 3) :=
  ⟨⟨by decide, by decide⟩,
    (info_with_record sampleValidators f1 uploadedF1 {} 10 (by decide) rfl rfl).1 (by decide)⟩

/-! ## C11: states never go back -/

theorem Grows.refl {α : Type} {R : α → α → Prop} (hR : ∀ a, R a a) :
    ∀ l : List α, Grows R l l
  | [] => trivial
  | a :: as => ⟨hR a, Grows.refl hR as⟩

theorem Grows.imp {α : Type} {R S : α → α → Prop} (h : ∀ a b, R a b → S a b) :
    ∀ (old new : List α), Grows R old new → Grows S old new
  | [], _, _ => trivial
  | _ :: _, [], hg => hg.elim
  | a :: as, b :: bs, hg => ⟨h a b hg.1, Grows.imp h as bs hg.2⟩

theorem Grows.trans {α : Type} {R : α → α → Prop} (hR : ∀ a b c, R a b → R b c → R a c) :
    ∀ (l1 l2 l3 : List α), Grows R l1 l2 → Grows R l2 l3 → Grows R l1 l3
  | [], _, _, _, _ => trivial
  | _ :: _, [], _, h12, _ => h12.elim
  | _ :: _, _ :: _, [], _, h23 => h23.elim
  | a :: as, b :: bs, c :: cs, h12, h23 =>
    ⟨hR a b c h12.1 h23.1, Grows.trans hR as bs cs h12.2 h23.2⟩

theorem Grows.map {α : Type} {R : α → α → Prop} (f : α → α) :
    ∀ (l : List α), (∀ a ∈ l, R a (f a)) → Grows R l (l.map f)
  | [], _ => trivial
  | a :: as, h =>
    ⟨h a (List.mem_cons_self _ _),
      Grows.map f as (fun x hx => h x (List.mem_cons_of_mem _ hx))⟩

theorem Grows.append_right {α : Type} {R : α → α → Prop} (added : List α) :
    ∀ (old new : List α), Grows R old new → Grows R old (new ++ added)
  | [], _, _ => trivial
  | _ :: _, [], hg => hg.elim
  | _ :: as, _ :: bs, hg => ⟨hg.1, Grows.append_right added as bs hg.2⟩

theorem Grows.mem {α : Type} {R : α → α → Prop} :
    ∀ (old new : List α), Grows R old new → ∀ a ∈ old, ∃ b ∈ new, R a b
  | [], _, _, a, ha => by cases ha
  | _ :: _, [], hg, _, _ => hg.elim
  | x :: as, b :: bs, hg, a, ha => by
    rcases List.mem_cons.mp ha with rfl | h
    · exact ⟨b, List.mem_cons_self _ _, hg.1⟩
    · obtain ⟨b', hb', hr⟩ := Grows.mem as bs hg.2 a h
      exact ⟨b', List.mem_cons_of_mem _ hb', hr⟩

/-- The first row that satisfies a test which `R` preserves stays the first. -/
theorem Grows.find? {α : Type} {R : α → α → Prop} (p : α → Bool)
    (hp : ∀ a b, R a b → p b = p a) :
    ∀ (old new : List α), Grows R old new → ∀ a, old.find? p = some a →
      ∃ b, new.find? p = some b ∧ R a b
  | [], _, _, a, ha => by cases ha
  | _ :: _, [], hg, _, _ => hg.elim
  | x :: as, b :: bs, hg, a, ha => by
    rw [List.find?_cons] at ha ⊢
    rw [hp x b hg.1]
    cases hx : p x with
    | true =>
      rw [hx] at ha
      simp only [Option.some.injEq] at ha
      subst ha
      exact ⟨b, rfl, hg.1⟩
    | false =>
      rw [hx] at ha
      exact Grows.find? p hp as bs hg.2 a ha


theorem evidenceLater_refl (a : EvidenceRow) : a.later a :=
  ⟨rfl, rfl, rfl, le_refl _, Or.inl rfl⟩

theorem evidenceLater_trans (a b c : EvidenceRow) (h1 : a.later b) (h2 : b.later c) :
    a.later c := by
  obtain ⟨r1, u1, e1, l1, s1⟩ := h1
  obtain ⟨r2, u2, e2, l2, s2⟩ := h2
  refine ⟨r2.trans r1, u2.trans u1, e2.trans e1, le_trans l1 l2, ?_⟩
  rcases s2 with h | h
  · rcases s1 with h' | h'
    · left; exact h.trans h'
    · right; exact h.trans h'
  · right; exact h

theorem mediaLater_refl (a : MediaFileRow) : a.later a :=
  ⟨rfl, rfl, rfl, rfl, rfl, rfl, le_refl _, Or.inl rfl⟩

theorem mediaLater_trans (a b c : MediaFileRow) (h1 : a.later b) (h2 : b.later c) :
    a.later c := by
  obtain ⟨i1, u1, n1, e1, m1, c1, l1, s1⟩ := h1
  obtain ⟨i2, u2, n2, e2, m2, c2, l2, s2⟩ := h2
  refine ⟨i2.trans i1, u2.trans u1, n2.trans n1, e2.trans e1, m2.trans m1, c2.trans c1,
    le_trans l1 l2, ?_⟩
  rcases s2 with h | h
  · rcases s1 with h' | h'
    · left; exact h.trans h'
    · right; exact h.trans h'
  · right; exact h

theorem MediaFileRow.sameRecord_refl (a : MediaFileRow) : a.sameRecord a :=
  ⟨rfl, rfl, rfl, rfl, rfl, rfl, rfl⟩

theorem MediaFileRow.sameRecord_trans (a b c : MediaFileRow) (h1 : a.sameRecord b)
    (h2 : b.sameRecord c) : a.sameRecord c := by
  obtain ⟨i1, u1, n1, e1, m1, c1, s1⟩ := h1
  obtain ⟨i2, u2, n2, e2, m2, c2, s2⟩ := h2
  exact ⟨i2.trans i1, u2.trans u1, n2.trans n1, e2.trans e1, m2.trans m1, c2.trans c1,
    s2.trans s1⟩

theorem MediaFileRow.sameRecord_later (a b : MediaFileRow) (h : a.sameRecord b) :
    a.later b := by
  obtain ⟨i1, u1, n1, e1, m1, c1, s1⟩ := h
  exact ⟨i1, u1, n1, e1, m1, c1, le_of_eq s1.symm, Or.inl s1⟩

/-- The evidence states are lifecycle values: none is above 20. -/
theorem evidenceState_mem (db : DB) (uid : String) (st : Int)
    (h : db.evidenceState uid = some st) : ∃ row ∈ db.evidence, row.state = st := by
  unfold DB.evidenceState at h
  cases hfind : db.evidence.find? (fun r => r.uid = uid) with
  | none => rw [hfind] at h; simp at h
  | some r0 =>
    rw [hfind] at h
    simp only [Option.map_some', Option.some.injEq] at h
    exact ⟨r0, List.mem_of_find?_eq_some hfind, h⟩

/-- One request: the evidence table grows, and no state rises above 20. -/
theorem step_evidence_grows (V : Validators) (op : Op) (s : Sys)
    (hle : ∀ r ∈ s.db.evidence, r.state ≤ 20) :
    Grows EvidenceRow.later s.db.evidence (step V op s).1.db.evidence ∧
    ∀ r ∈ (step V op s).1.db.evidence, r.state ≤ 20 := by
  rcases step_evidence V op s with h | ⟨name, h⟩ | ⟨added, h, hadd⟩
  · rw [h]
    exact ⟨Grows.refl evidenceLater_refl _, hle⟩
  · rw [h]
    constructor
    · apply Grows.map
      intro a ha
      by_cases hu : a.uid = name
      · rw [if_pos hu]
        exact ⟨rfl, rfl, rfl, hle a ha, Or.inr rfl⟩
      · rw [if_neg hu]
        exact evidenceLater_refl a
    · intro r hr
      simp only [List.mem_map] at hr
      obtain ⟨a, ha, rfl⟩ := hr
      by_cases hu : a.uid = name
      · simp [hu]
      · simp only [hu, if_false]
        exact hle a ha
  · rw [h]
    constructor
    · exact Grows.append_right added _ _ (Grows.refl evidenceLater_refl _)
    · intro r hr
      rcases List.mem_append.mp hr with h1 | h1
      · exact hle r h1
      · rw [(hadd r h1).2]
        cases hst : s.db.evidenceState r.uid with
        | none => simp
        | some st =>
          obtain ⟨row, hrow, hrs⟩ := evidenceState_mem s.db r.uid st hst
          simp only [Option.getD_some]
          rw [← hrs]
          exact hle row hrow


theorem execInsertMediaFile_grows (db : DB) (now : Int) (m : MediaFile) :
    Grows MediaFileRow.sameRecord db.media_file (execInsertMediaFile db now m).media_file := by
  unfold execInsertMediaFile
  split
  · apply Grows.map
    intro a _
    by_cases hu : a.uid = m.UID
    · rw [if_pos hu]
      exact ⟨rfl, rfl, rfl, rfl, rfl, rfl, rfl⟩
    · rw [if_neg hu]
      exact MediaFileRow.sameRecord_refl a
  · exact Grows.append_right _ _ _ (Grows.refl MediaFileRow.sameRecord_refl _)

/-- The rows after one insert statement: old records, or the new row. -/
theorem execInsertMediaFile_rows (db : DB) (now : Int) (m : MediaFile) :
    ∀ row ∈ (execInsertMediaFile db now m).media_file,
      (∃ old ∈ db.media_file, old.sameRecord row) ∨
      (db.mediaState m.UID = none ∧ row.uid = m.UID ∧ row.fileName = m.FileName ∧
        row.fileExt = m.FileExt ∧ row.metadata = m.Metadata ∧ row.state = m.State ∧
        row.created = m.Created) := by
  intro row hrow
  unfold execInsertMediaFile at hrow
  split at hrow
  · left
    simp only [List.mem_map] at hrow
    obtain ⟨a, ha, rfl⟩ := hrow
    refine ⟨a, ha, ?_⟩
    by_cases hu : a.uid = m.UID
    · rw [if_pos hu]
      exact ⟨rfl, rfl, rfl, rfl, rfl, rfl, rfl⟩
    · rw [if_neg hu]
      exact MediaFileRow.sameRecord_refl a
  · rename_i hany
    simp only [List.mem_append, List.mem_singleton] at hrow
    rcases hrow with h | h
    · left; exact ⟨row, h, MediaFileRow.sameRecord_refl row⟩
    · right
      subst h
      refine ⟨?_, rfl, rfl, rfl, rfl, rfl, rfl⟩
      unfold DB.mediaState
      simp only [Option.map_eq_none', List.find?_eq_none]
      intro x hx
      simp only [Bool.not_eq_true, List.any_eq_false] at hany
      have := hany x hx
      simpa using this

theorem registerLoop_grows (env : RegisterEnv) (ms : List MediaFile) :
    ∀ (i : Nat) (db : DB),
      Grows MediaFileRow.sameRecord db.media_file (registerLoop env ms i db).2.media_file := by
  induction ms with
  | nil => intro i db; exact Grows.refl MediaFileRow.sameRecord_refl _
  | cons m rest ih =>
    intro i db
    simp only [registerLoop]
    split
    · exact Grows.refl MediaFileRow.sameRecord_refl _
    · exact Grows.trans MediaFileRow.sameRecord_trans _ _ _
        (execInsertMediaFile_grows db env.now _) (ih _ _)

/-- The rows after the insert loop: old records, or rows inserted in state 10
with the extension of their file name, each from an attachment. -/
theorem registerLoop_rows (env : RegisterEnv) (ms : List MediaFile) :
    ∀ (i : Nat) (db : DB), ∀ row ∈ (registerLoop env ms i db).2.media_file,
      (∃ old ∈ db.media_file, old.sameRecord row) ∨
      (db.mediaState row.uid = none ∧ row.state = 10 ∧ row.fileExt = pathExt row.fileName ∧
        ∃ m ∈ ms, m.UID = row.uid ∧ row.fileName = m.FileName ∧
          row.metadata = m.Metadata ∧ row.created = m.Created) := by
  induction ms with
  | nil =>
    intro i db row hrow
    left; exact ⟨row, hrow, MediaFileRow.sameRecord_refl row⟩
  | cons m rest ih =>
    intro i db row hrow
    simp only [registerLoop] at hrow
    split at hrow
    · left; exact ⟨row, hrow, MediaFileRow.sameRecord_refl row⟩
    · rcases ih _ _ row hrow with ⟨mid, hmid, hsame⟩ | ⟨hnone, h10, hext, m', hm', h⟩
      · rcases execInsertMediaFile_rows db env.now _ mid hmid with
          ⟨old, hold, hs⟩ | ⟨hn, hu, hn2, he, hmeta, hst, hc⟩
        · left; exact ⟨old, hold, MediaFileRow.sameRecord_trans _ _ _ hs hsame⟩
        · right
          obtain ⟨_, u1, n1, e1, m1, c1, s1⟩ := hsame
          refine ⟨?_, ?_, ?_, m, List.mem_cons_self _ _, ?_, ?_, ?_, ?_⟩
          · rw [u1, hu]; exact hn
          · rw [s1, hst]
          · rw [e1, n1, he, hn2]
          · rw [u1, hu]
          · rw [n1, hn2]
          · rw [m1, hmeta]
          · rw [c1, hc]
      · right
        refine ⟨?_, h10, hext, m', List.mem_cons_of_mem _ hm', h⟩
        cases hst : db.mediaState row.uid with
        | none => rfl
        | some st =>
          rw [execInsertMediaFile_mediaState db env.now _ row.uid st hst] at hnone
          cases hnone

/-- The media file table after one request. -/
theorem step_media_file (V : Validators) (op : Op) (s : Sys) :
    (step V op s).1.db.media_file = s.db.media_file ∨
    (∃ name, (step V op s).1.db.media_file =
      s.db.media_file.map (fun r => if r.uid = name then { r with state := 30 } else r)) ∨
    ∃ (env : RegisterEnv) (ms : List MediaFile),
      (step V op s).1.db.media_file = (registerLoop env ms 0 s.db).2.media_file := by
  cases op with
  | createReport env req => left; exact handleCreateReport_media_file V env req s.db
  | registerFormMediaFiles env req =>
    show (handleRegisterFormMediaFiles V env req s.db).1.media_file = _ ∨ _
    rcases handleRegisterFormMediaFiles_cases V env req s.db with h1 | h1 | ⟨reg, _, h1⟩
    · left; rw [h1]
    · left; rw [h1]
    · right; right
      refine ⟨env, reg.Attachments, ?_⟩
      show (handleRegisterFormMediaFiles V env req s.db).1.media_file = _
      rw [h1]
  | upload f name body =>
    left; show (handleUpload V f name body s).1.db.media_file = _; rw [handleUpload_db]
  | info f name => left; rfl
  | done f name =>
    left
    show (handleDone V f name s.db).1.media_file = _
    rcases handleDone_cases V f name s.db with ⟨_, h1⟩ | ⟨_, _, h1⟩ | ⟨_, _, _, h1⟩ |
      ⟨_, _, _, _, h1⟩ | ⟨_, _, _, _, h1⟩ <;> rw [h1] <;> rfl
  | mediaUpload f uid body =>
    left; show (handleMediaUpload V f uid body s).1.db.media_file = _
    rw [handleMediaUpload_db]
  | mediaInfo f uid => left; rfl
  | mediaDone f uid =>
    show (handleMediaDone V f uid s.db).1.media_file = _ ∨ _
    rcases handleMediaDone_cases V f uid s.db with ⟨_, h1⟩ | ⟨_, _, h1⟩ | ⟨_, _, _, h1⟩ |
      ⟨_, _, _, _, h1⟩ | ⟨_, _, _, _, h1⟩
    · left; rw [h1]
    · left; rw [h1]
    · right; left
      refine ⟨uid, ?_⟩
      show (handleMediaDone V f uid s.db).1.media_file = _
      rw [h1]
      rfl
    · right; left
      refine ⟨uid, ?_⟩
      show (handleMediaDone V f uid s.db).1.media_file = _
      rw [h1]
      rfl
    · right; left
      refine ⟨uid, ?_⟩
      show (handleMediaDone V f uid s.db).1.media_file = _
      rw [h1]
      rfl

/-- One request: the media file table grows, and no state rises above 30. -/
theorem step_media_grows (V : Validators) (op : Op) (s : Sys)
    (hle : ∀ r ∈ s.db.media_file, r.state ≤ 30) :
    Grows MediaFileRow.later s.db.media_file (step V op s).1.db.media_file ∧
    ∀ r ∈ (step V op s).1.db.media_file, r.state ≤ 30 := by
  rcases step_media_file V op s with h | ⟨name, h⟩ | ⟨env, ms, h⟩
  · rw [h]
    exact ⟨Grows.refl mediaLater_refl _, hle⟩
  · rw [h]
    constructor
    · apply Grows.map
      intro a ha
      by_cases hu : a.uid = name
      · rw [if_pos hu]
        exact ⟨rfl, rfl, rfl, rfl, rfl, rfl, hle a ha, Or.inr rfl⟩
      · rw [if_neg hu]
        exact mediaLater_refl a
    · intro r hr
      simp only [List.mem_map] at hr
      obtain ⟨a, ha, rfl⟩ := hr
      by_cases hu : a.uid = name
      · simp [hu]
      · rw [if_neg hu]
        exact hle a ha
  · rw [h]
    constructor
    · exact Grows.imp MediaFileRow.sameRecord_later _ _ (registerLoop_grows env ms 0 s.db)
    · intro r hr
      rcases registerLoop_rows env ms 0 s.db r hr with ⟨old, hold, hs⟩ | ⟨_, h10, _⟩
      · rw [hs.2.2.2.2.2.2]
        exact hle old hold
      · rw [h10]; decide

/-- Any sequence of requests: both lifecycle tables grow. -/
theorem run_grows (V : Validators) (ops : List Op) :
    ∀ s : Sys, (∀ r ∈ s.db.evidence, r.state ≤ 20) → (∀ r ∈ s.db.media_file, r.state ≤ 30) →
      Grows EvidenceRow.later s.db.evidence (run V ops s).db.evidence ∧
      Grows MediaFileRow.later s.db.media_file (run V ops s).db.media_file := by
  induction ops with
  | nil =>
    intro s _ _
    exact ⟨Grows.refl evidenceLater_refl _, Grows.refl mediaLater_refl _⟩
  | cons op rest ih =>
    intro s he hm
    obtain ⟨ge, he1⟩ := step_evidence_grows V op s he
    obtain ⟨gm, hm1⟩ := step_media_grows V op s hm
    obtain ⟨ge2, gm2⟩ := ih _ he1 hm1
    exact ⟨Grows.trans evidenceLater_trans _ _ _ ge ge2,
      Grows.trans mediaLater_trans _ _ _ gm gm2⟩

/-- Any sequence of requests keeps the states at or below 20 and 30. -/
theorem run_states_le (V : Validators) (ops : List Op) :
    ∀ s : Sys, (∀ r ∈ s.db.evidence, r.state ≤ 20) → (∀ r ∈ s.db.media_file, r.state ≤ 30) →
      (∀ r ∈ (run V ops s).db.evidence, r.state ≤ 20) ∧
      (∀ r ∈ (run V ops s).db.media_file, r.state ≤ 30) := by
  induction ops with
  | nil => intro s he hm; exact ⟨he, hm⟩
  | cons op rest ih =>
    intro s he hm
    exact ih _ (step_evidence_grows V op s he).2 (step_media_grows V op s hm).2


theorem run_append (V : Validators) (ops1 ops2 : List Op) :
    ∀ s : Sys, run V (ops1 ++ ops2) s = run V ops2 (run V ops1 s) := by
  induction ops1 with
  | nil => intro s; rfl
  | cons op rest ih => intro s; exact ih _

/-- C11. Starting with empty lifecycle tables, compare the system after any
sequence of requests `ops1` with the system after any further requests
`ops2` (report creations, registrations, uploads, info and done calls, with or
without faults). Both tables have grown: every row is still there, at the
same place, with the same identity, a state that is not smaller, and that is
the old state or 20 (evidence) or 30 (media file). The state read for an
identifier that had a record is not smaller, is the old one or 20 (or 30), and
a state 20 (or 30) stays. -/
theorem lifecycle_monotonic (V : Validators) (s0 : Sys) (ops1 ops2 : List Op)
    (he : s0.db.evidence = []) (hm : s0.db.media_file = []) :
    Grows EvidenceRow.later (run V ops1 s0).db.evidence
      (run V (ops1 ++ ops2) s0).db.evidence ∧
    Grows MediaFileRow.later (run V ops1 s0).db.media_file
      (run V (ops1 ++ ops2) s0).db.media_file ∧
    (∀ uid st, (run V ops1 s0).db.evidenceState uid = some st →
      ∃ st', (run V (ops1 ++ ops2) s0).db.evidenceState uid = some st' ∧
        st ≤ st' ∧ (st' = st ∨ st' = 20) ∧ (st = 20 → st' = 20)) ∧
    (∀ uid st, (run V ops1 s0).db.mediaState uid = some st →
      ∃ st', (run V (ops1 ++ ops2) s0).db.mediaState uid = some st' ∧
        st ≤ st' ∧ (st' = st ∨ st' = 30) ∧ (st = 30 → st' = 30)) := by
  have hinv := run_states_le V ops1 s0 (by rw [he]; intro r hr; cases hr)
    (by rw [hm]; intro r hr; cases hr)
  obtain ⟨ge, gm⟩ := run_grows V ops2 (run V ops1 s0) hinv.1 hinv.2
  rw [run_append]
  refine ⟨ge, gm, ?_, ?_⟩
  · intro uid st hst
    unfold DB.evidenceState at hst ⊢
    cases hfind : (run V ops1 s0).db.evidence.find? (fun r => r.uid = uid) with
    | none => rw [hfind] at hst; simp at hst
    | some a =>
      rw [hfind] at hst
      simp only [Option.map_some', Option.some.injEq] at hst
      obtain ⟨b, hb, hlater⟩ := Grows.find? (fun r : EvidenceRow => decide (r.uid = uid))
        (fun x y hxy => by simp only [hxy.2.1]) _ _ ge a hfind
      refine ⟨b.state, by rw [hb]; rfl, ?_, ?_, ?_⟩
      · rw [← hst]; exact hlater.2.2.2.1
      · rw [← hst]; exact hlater.2.2.2.2
      · intro h20
        rcases hlater.2.2.2.2 with h | h
        · rw [h, hst, h20]
        · exact h
  · intro uid st hst
    unfold DB.mediaState at hst ⊢
    cases hfind : (run V ops1 s0).db.media_file.find? (fun r => r.uid = uid) with
    | none => rw [hfind] at hst; simp at hst
    | some a =>
      rw [hfind] at hst
      simp only [Option.map_some', Option.some.injEq] at hst
      obtain ⟨b, hb, hlater⟩ := Grows.find? (fun r : MediaFileRow => decide (r.uid = uid))
        (fun x y hxy => by simp only [hxy.2.1]) _ _ gm a hfind
      refine ⟨b.state, by rw [hb]; rfl, ?_, ?_, ?_⟩
      · rw [← hst]; exact hlater.2.2.2.2.2.2.1
      · rw [← hst]; exact hlater.2.2.2.2.2.2.2
      · intro h30
        rcases hlater.2.2.2.2.2.2.2 with h | h
        · rw [h, hst, h30]
        · exact h

/-- Witness of C11: after a report on `e1` and the registration of `f1` the
states are 0 and 10; after done calls, a second report and a second
registration they are 20 and 30, and the tables have grown. -/
theorem lifecycle_monotonic_witness :
    (({} : Sys).db.evidence = [] ∧ ({} : Sys).db.media_file = [] ∧
     (run sampleValidators lifecycleOpsBefore {}).db.evidenceState e1 = some 0 ∧
     (run sampleValidators lifecycleOpsBefore {}).db.mediaState f1 = some 10 ∧
     (run sampleValidators (lifecycleOpsBefore ++ lifecycleOpsAfter) {}).db.evidenceState e1
       = some 20 ∧
     (run sampleValidators (lifecycleOpsBefore ++ lifecycleOpsAfter) {}).db.mediaState f1
       = some 30) ∧
    Grows EvidenceRow.later (run sampleValidators lifecycleOpsBefore {}).db.evidence
      (run sampleValidators (lifecycleOpsBefore ++ lifecycleOpsAfter) {}).db.evidence ∧
    Grows MediaFileRow.later (run sampleValidators lifecycleOpsBefore {}).db.media_file
      (run sampleValidators (lifecycleOpsBefore ++ lifecycleOpsAfter) {}).db.media_file :=
  ⟨⟨rfl, rfl, by decide, by decide, by decide, by decide⟩,
    (lifecycle_monotonic sampleValidators {} lifecycleOpsBefore lifecycleOpsAfter rfl rfl).1,
    (lifecycle_monotonic sampleValidators {} lifecycleOpsBefore lifecycleOpsAfter rfl rfl).2.1⟩

/-! ## C12: registration is idempotent -/

/-- A registration answered 200 was read, decoded, validated, and every insert
succeeded. -/
theorem handleRegisterFormMediaFiles_ok (V : Validators) (env : RegisterEnv)
    (req : RegisterRequest) (reg : FormMediaFileRegister) (db : DB)
    (hjson : req.json = some reg)
    (h200 : (handleRegisterFormMediaFiles V env req db).2 = .status 200) :
    env.readBody = false ∧ V.structRegistration reg = true ∧
    reg.Attachments.all (validateMediafile V) = true ∧
    (registerLoop env reg.Attachments 0 db).1 = true ∧
    (handleRegisterFormMediaFiles V env req db).1 = (registerLoop env reg.Attachments 0 db).2 := by
  unfold handleRegisterFormMediaFiles at h200 ⊢
  rw [hjson] at h200 ⊢
  cases hr : env.readBody
  · cases hs : V.structRegistration reg
    · simp [hr, hs] at h200
    · cases hv : reg.Attachments.all (validateMediafile V)
      · simp [hr, hs, hv] at h200
      · rcases hloop : registerLoop env reg.Attachments 0 db with ⟨ok, db1⟩
        cases ok
        · simp [hr, hs, hv, hloop] at h200
        · simp [hr, hs, hv, hloop]
  · simp [hr] at h200

theorem execInsertMediaFile_key (db : DB) (now : Int) (m : MediaFile) :
    ∃ row ∈ (execInsertMediaFile db now m).media_file, row.uid = m.UID := by
  unfold execInsertMediaFile
  split
  · rename_i hany
    simp only [List.any_eq_true, decide_eq_true_eq] at hany
    obtain ⟨r, hr, hu⟩ := hany
    refine ⟨_, List.mem_map.mpr ⟨r, hr, rfl⟩, ?_⟩
    rw [if_pos hu]
    exact hu
  · exact ⟨_, List.mem_append.mpr (Or.inr (List.mem_singleton.mpr rfl)), rfl⟩

/-- After a loop that did not fail every attachment has a record. -/
theorem registerLoop_keys (env : RegisterEnv) (ms : List MediaFile) :
    ∀ (i : Nat) (db : DB), (registerLoop env ms i db).1 = true →
      ∀ m ∈ ms, ∃ row ∈ (registerLoop env ms i db).2.media_file, row.uid = m.UID := by
  induction ms with
  | nil => intro i db _ m hm; cases hm
  | cons m0 rest ih =>
    intro i db hok m hm
    simp only [registerLoop] at hok ⊢
    split at hok
    · cases hok
    · rename_i hexec
      rw [if_neg hexec]
      rcases List.mem_cons.mp hm with rfl | hmem
      · obtain ⟨row, hrow, hu⟩ := execInsertMediaFile_key db env.now
          { { m with State := 10 } with FileExt := pathExt m.FileName }
        obtain ⟨row', hrow', hs⟩ := Grows.mem _ _ (registerLoop_grows env rest (i + 1) _) row hrow
        exact ⟨row', hrow', hs.2.1.trans hu⟩
      · exact ih _ _ hok m hmem

theorem map_setUpdated_forget (rows : List MediaFileRow) (uid : String) (now : Int) :
    (rows.map (fun r => if r.uid = uid then { r with updated := some now } else r)).map
        MediaFileRow.forgetUpdated = rows.map MediaFileRow.forgetUpdated := by
  rw [List.map_map]
  apply List.map_congr_left
  intro r _
  simp only [Function.comp]
  split <;> rfl

theorem any_map_setUpdated (rows : List MediaFileRow) (uid u : String) (now : Int) :
    (rows.map (fun r => if r.uid = uid then { r with updated := some now } else r)).any
        (fun r => r.uid = u) = rows.any (fun r => r.uid = u) := by
  induction rows with
  | nil => rfl
  | cons r rest ih =>
    have huid : (if r.uid = uid then ({ r with updated := some now } : MediaFileRow)
        else r).uid = r.uid := by
      split <;> rfl
    simp only [List.map_cons, List.any_cons, huid, ih]

theorem execInsertMediaFile_existing (db : DB) (now : Int) (m : MediaFile)
    (h : db.media_file.any (fun r => r.uid = m.UID) = true) :
    (execInsertMediaFile db now m).media_file.map MediaFileRow.forgetUpdated =
      db.media_file.map MediaFileRow.forgetUpdated ∧
    (∀ u, (execInsertMediaFile db now m).media_file.any (fun r => r.uid = u) =
      db.media_file.any (fun r => r.uid = u)) ∧
    (execInsertMediaFile db now m).mediaSeq = db.mediaSeq := by
  unfold execInsertMediaFile
  rw [if_pos h]
  exact ⟨map_setUpdated_forget db.media_file m.UID now,
    fun u => any_map_setUpdated db.media_file m.UID u now, rfl⟩

/-- When every attachment has a record already, a loop without faults changes
nothing but `updated` timestamps. -/
theorem registerLoop_existing (env : RegisterEnv) (hexec : ∀ i, env.exec i = false)
    (ms : List MediaFile) :
    ∀ (i : Nat) (db : DB), (∀ m ∈ ms, db.media_file.any (fun r => r.uid = m.UID) = true) →
      (registerLoop env ms i db).1 = true ∧
      (registerLoop env ms i db).2.media_file.map MediaFileRow.forgetUpdated =
        db.media_file.map MediaFileRow.forgetUpdated ∧
      (registerLoop env ms i db).2.mediaSeq = db.mediaSeq := by
  induction ms with
  | nil => intro i db _; exact ⟨rfl, rfl, rfl⟩
  | cons m rest ih =>
    intro i db hall
    have hm := hall m (List.mem_cons_self _ _)
    simp only [registerLoop, hexec, Bool.false_eq_true, if_false]
    obtain ⟨e1, e2, e3⟩ := execInsertMediaFile_existing db env.now
      { ID := m.ID, UID := m.UID, FileName := m.FileName, FileExt := pathExt m.FileName,
        Metadata := m.Metadata, State := 10, Created := m.Created } hm
    obtain ⟨h1, h2, h3⟩ := ih (i + 1) (execInsertMediaFile db env.now
      { ID := m.ID, UID := m.UID, FileName := m.FileName, FileExt := pathExt m.FileName,
        Metadata := m.Metadata, State := 10, Created := m.Created })
      (fun m' hm' => by
        rw [e2]
        exact hall m' (List.mem_cons_of_mem _ hm'))
    exact ⟨h1, h2.trans e1, h3.trans e3⟩


/-- C12. For a registration answered 200 (it decoded, passed validation, and
no insert failed): the records that existed keep their place and everything
but `updated` (state, fileName, fileExt, metadata); for an attachment whose
uid had no record, a record exists afterwards, its state read by
`getMediaFile` is 10, and every record of that uid has state 10, the
extension `path.Ext` of its file name, and file name, metadata and creation
time of an attachment with that uid; and the same registration sent again,
without faults, is answered 200 and leaves the same records up to `updated`. -/
theorem register_idempotent (V : Validators) (env env2 : RegisterEnv) (req : RegisterRequest)
    (reg : FormMediaFileRegister) (db : DB)
    (hjson : req.json = some reg)
    (h200 : (handleRegisterFormMediaFiles V env req db).2 = .status 200)
    (hread2 : env2.readBody = false) (hexec2 : ∀ i, env2.exec i = false) :
    Grows MediaFileRow.sameRecord db.media_file
      (handleRegisterFormMediaFiles V env req db).1.media_file ∧
    (∀ m ∈ reg.Attachments, db.mediaState m.UID = none →
      (handleRegisterFormMediaFiles V env req db).1.mediaState m.UID = some 10 ∧
      ∀ row ∈ (handleRegisterFormMediaFiles V env req db).1.media_file, row.uid = m.UID →
        row.state = 10 ∧ row.fileExt = pathExt row.fileName ∧
        ∃ m' ∈ reg.Attachments, m'.UID = m.UID ∧ row.fileName = m'.FileName ∧
          row.metadata = m'.Metadata ∧ row.created = m'.Created) ∧
    (handleRegisterFormMediaFiles V env2 req
      (handleRegisterFormMediaFiles V env req db).1).2 = .status 200 ∧
    (handleRegisterFormMediaFiles V env2 req
      (handleRegisterFormMediaFiles V env req db).1).1.media_file.map
        MediaFileRow.forgetUpdated =
      (handleRegisterFormMediaFiles V env req db).1.media_file.map
        MediaFileRow.forgetUpdated := by
  obtain ⟨_, hs, hv, hok, hdb⟩ := handleRegisterFormMediaFiles_ok V env req reg db hjson h200
  rw [hdb]
  have hrows := registerLoop_rows env reg.Attachments 0 db
  have hkeys := registerLoop_keys env reg.Attachments 0 db hok
  have hnew : ∀ m ∈ reg.Attachments, db.mediaState m.UID = none →
      ∀ row ∈ (registerLoop env reg.Attachments 0 db).2.media_file, row.uid = m.UID →
        row.state = 10 ∧ row.fileExt = pathExt row.fileName ∧
        ∃ m' ∈ reg.Attachments, m'.UID = m.UID ∧ row.fileName = m'.FileName ∧
          row.metadata = m'.Metadata ∧ row.created = m'.Created := by
    intro m _ hnone row hrow hu
    rcases hrows row hrow with ⟨old, hold, hsame⟩ | ⟨_, h10, hext, m', hm', hu', hrest⟩
    · exfalso
      have hany := mediaState_none_any db m.UID hnone
      simp only [List.any_eq_false, decide_eq_true_eq] at hany
      exact hany old hold (hsame.2.1.symm.trans hu)
    · exact ⟨h10, hext, m', hm', hu'.trans hu, hrest⟩
  refine ⟨registerLoop_grows env reg.Attachments 0 db, ?_, ?_⟩
  · intro m hm hnone
    refine ⟨?_, hnew m hm hnone⟩
    obtain ⟨row, hrow, hu⟩ := hkeys m hm
    unfold DB.mediaState
    cases hfind : (registerLoop env reg.Attachments 0 db).2.media_file.find?
        (fun r => r.uid = m.UID) with
    | none =>
      have := List.find?_eq_none.mp hfind row hrow
      simp [hu] at this
    | some r0 =>
      have hmem := List.mem_of_find?_eq_some hfind
      have hu0 := List.find?_some hfind
      simp only [decide_eq_true_eq] at hu0
      simp only [Option.map_some', Option.some.injEq]
      exact (hnew m hm hnone r0 hmem hu0).1
  · have hall : ∀ m ∈ reg.Attachments,
        (registerLoop env reg.Attachments 0 db).2.media_file.any (fun r => r.uid = m.UID)
          = true := by
      intro m hm
      obtain ⟨row, hrow, hu⟩ := hkeys m hm
      simp only [List.any_eq_true, decide_eq_true_eq]
      exact ⟨row, hrow, hu⟩
    obtain ⟨h1, h2, _⟩ := registerLoop_existing env2 hexec2 reg.Attachments 0
      (registerLoop env reg.Attachments 0 db).2 hall
    rcases hloop2 : registerLoop env2 reg.Attachments 0
      (registerLoop env reg.Attachments 0 db).2 with ⟨ok2, db2⟩
    rw [hloop2] at h1 h2
    simp only at h1 h2
    subst h1
    unfold handleRegisterFormMediaFiles
    simp only [hjson, hread2, hs, hv, hloop2, Bool.not_true, Bool.false_eq_true, if_false]
    exact ⟨trivial, h2⟩

/-- Witness of C12: `f1` is registered with state 30 sent by the client; the
record gets state 10 and extension `.jpg`, and a second registration leaves
it as it is. -/
theorem register_idempotent_witness :
    (registerF1.json = some { Attachments := [mediaF1] } ∧
     (handleRegisterFormMediaFiles sampleValidators {} registerF1 {}).2 = .status 200 ∧
     mediaF1.State = 30 ∧ ({} : DB).mediaState mediaF1.UID = none ∧
     (handleRegisterFormMediaFiles sampleValidators {} registerF1 {}).1.media_file =
       [⟨1, f1, "0e37df36-f698-11e6-8dd4-cb9ced3df976.jpg", ".jpg", {}, 10, 0, none⟩]) ∧
    (handleRegisterFormMediaFiles sampleValidators {} registerF1 {}).1.mediaState
      mediaF1.UID = some 10 ∧
    (handleRegisterFormMediaFiles sampleValidators { now := 7 } registerF1
      (handleRegisterFormMediaFiles sampleValidators {} registerF1 {}).1).1.media_file.map
        MediaFileRow.forgetUpdated =
      (handleRegisterFormMediaFiles sampleValidators {} registerF1 {}).1.media_file.map
        MediaFileRow.forgetUpdated :=
  ⟨⟨rfl, by decide, rfl, by decide, by decide⟩,
    ((register_idempotent sampleValidators {} { now := 7 } registerF1
      { Attachments := [mediaF1] } {} rfl (by decide) rfl (fun _ => rfl)).2.1 mediaF1
      (List.mem_cons_self _ _) (by decide)).1,
    (register_idempotent sampleValidators {} { now := 7 } registerF1
      { Attachments := [mediaF1] } {} rfl (by decide) rfl (fun _ => rfl)).2.2.2⟩

/-! ## C13: the forward URL of the reflector -/

/-- `GetWhistlerURL` in terms of the lookups it performs: no error exactly when
the raw URL parses and `isURLAllowed` holds of the translated URL; the string
is then `URLString` of the translated URL, and empty in every other case. -/
theorem GetWhistlerURL_by_lookup (N : NetURL) (h : Hosts) (rawurl : String) :
    ((GetWhistlerURL N h rawurl).2 = none ↔
      ∃ url, N.Parse rawurl = .ok url ∧
        (h.allowed = [] ∨ indexBool h.allowed (translateHost h url).Host = true)) ∧
    (∀ url, N.Parse rawurl = .ok url → (GetWhistlerURL N h rawurl).2 = none →
      (GetWhistlerURL N h rawurl).1 = N.URLString (translateHost h url)) ∧
    (∀ url, (translateHost h url).Host =
        (if indexString h.secrets url.Host ≠ "" then indexString h.secrets url.Host
         else url.Host) ∧
      { translateHost h url with Host := url.Host } = url) ∧
    ((GetWhistlerURL N h rawurl).2 ≠ none → (GetWhistlerURL N h rawurl).1 = "") := by
  have hallowed : ∀ url : URL, isURLAllowed h url = true ↔
      (h.allowed = [] ∨ indexBool h.allowed url.Host = true) := by
    intro url
    unfold isURLAllowed
    cases hl : h.allowed with
    | nil => simp
    | cons a rest => simp
  refine ⟨?_, ?_, ?_, ?_⟩
  · unfold GetWhistlerURL
    cases hp : N.Parse rawurl with
    | error err => simp
    | ok url =>
      simp only [Except.ok.injEq, exists_eq_left']
      cases ha : isURLAllowed h (translateHost h url)
      · have := (hallowed (translateHost h url)).not
        simp only [ha, Bool.false_eq_true, not_false_eq_true, true_iff] at this
        simp [this]
      · have := (hallowed (translateHost h url)).mp ha
        simp [this]
  · intro url hp herr
    unfold GetWhistlerURL at herr ⊢
    rw [hp] at herr ⊢
    cases ha : isURLAllowed h (translateHost h url)
    · simp [ha] at herr
    · simp [ha]
  · intro url
    unfold translateHost
    split <;> exact ⟨rfl, rfl⟩
  · intro herr
    unfold GetWhistlerURL at herr ⊢
    cases hp : N.Parse rawurl with
    | error err => rfl
    | ok url =>
      rw [hp] at herr
      cases ha : isURLAllowed h (translateHost h url)
      · simp [ha]
      · simp [ha] at herr

/-- With the tables of the source: an allowed host passes unchanged, another
host is refused, and the alias `secret` is translated to
`secret.whistlerapp.org`, which `allowed` does not hold, and refused. -/
theorem GetWhistlerURL_examples :
    GetWhistlerURL sampleNetURL hosts "https://www.whistlerapp.org/a/b" =
      ("https://www.whistlerapp.org/a/b", none) ∧
    GetWhistlerURL sampleNetURL hosts "https://example.org/a" =
      ("", some (.other "Forward URL not allowed")) ∧
    (translateHost hosts { Host := "secret" }).Host = "secret.whistlerapp.org" ∧
    GetWhistlerURL sampleNetURL hosts "https://secret/a" =
      ("", some (.other "Forward URL not allowed")) ∧
    GetWhistlerURL sampleNetURL { hosts with allowed := [] } "https://secret/a" =
      ("https://secret.whistlerapp.org/a", none) ∧
    GetWhistlerURL sampleNetURL hosts "ftp://whistlerapp.org" =
      ("", some (.other "unsupported URL")) := by
  decide


theorem lookup_iff_mem {β : Type} (l : List (String × β)) (k : String) (v : β)
    (hnd : (l.map Prod.fst).Nodup) : List.lookup k l = some v ↔ (k, v) ∈ l := by
  induction l with
  | nil => simp
  | cons p rest ih =>
    obtain ⟨a, b⟩ := p
    simp only [List.map_cons, List.nodup_cons] at hnd
    obtain ⟨hnot, hrest⟩ := hnd
    by_cases hk : k = a
    · subst hk
      have hnomem : (k, v) ∉ rest := fun hmem =>
        hnot (List.mem_map.mpr ⟨(k, v), hmem, rfl⟩)
      simp only [List.lookup_cons, beq_self_eq_true, Option.some.injEq, List.mem_cons,
        Prod.mk.injEq, true_and, hnomem, or_false]
      exact eq_comm
    · have hbeq : (k == a) = false := by simp [hk]
      simp only [List.lookup_cons, hbeq, List.mem_cons, Prod.mk.injEq, hk, false_and,
        false_or]
      exact ih hrest

theorem translateHost_rest (h : Hosts) (url : URL) :
    translateHost h url = { url with Host := (translateHost h url).Host } := by
  unfold translateHost
  split <;> rfl

/-- On a well-formed map the translation of the claim is the host that
`translateHost` computes. -/
theorem secretTranslation_iff (h : Hosts) (url : URL) (translated : String)
    (hnd : (h.secrets.map Prod.fst).Nodup) :
    SecretTranslation h.secrets url.Host translated ↔
      translated = (translateHost h url).Host := by
  have hlook := fun v => lookup_iff_mem h.secrets url.Host v hnd
  unfold SecretTranslation translateHost indexString
  cases hl : List.lookup url.Host h.secrets with
  | none =>
    have hno : ∀ target, (url.Host, target) ∉ h.secrets := by
      intro target hmem
      rw [← hlook target, hl] at hmem
      cases hmem
    simp only [Option.getD_none, ne_eq, not_true_eq_false, if_false]
    constructor
    · rintro (⟨target, hmem, _⟩ | ⟨_, ht⟩)
      · exact absurd hmem (hno target)
      · exact ht
    · intro ht
      exact Or.inr ⟨fun target hmem => absurd hmem (hno target), ht⟩
  | some target0 =>
    have hmem0 : (url.Host, target0) ∈ h.secrets := (hlook target0).mp hl
    have huniq : ∀ target, (url.Host, target) ∈ h.secrets → target = target0 := by
      intro target hmem
      have := (hlook target).mpr hmem
      rw [hl] at this
      exact (Option.some.inj this).symm
    simp only [Option.getD_some]
    by_cases hempty : target0 = ""
    · simp only [hempty, ne_eq, not_true_eq_false, if_false]
      constructor
      · rintro (⟨target, hmem, hne, _⟩ | ⟨_, ht⟩)
        · exact absurd ((huniq target hmem).trans hempty) hne
        · exact ht
      · intro ht
        exact Or.inr ⟨fun target hmem => (huniq target hmem).trans hempty, ht⟩
    · rw [if_pos hempty]
      constructor
      · rintro (⟨target, hmem, _, ht⟩ | ⟨hall, _⟩)
        · exact ht.trans (huniq target hmem)
        · exact absurd (hall target0 hmem0) hempty
      · intro ht
        exact Or.inl ⟨target0, hmem0, hempty, ht⟩

/-- On a well-formed map the allowed set of the claim is what `isURLAllowed`
tests. -/
theorem inAllowedSet_iff (h : Hosts) (host : String)
    (hnd : (h.allowed.map Prod.fst).Nodup) :
    InAllowedSet h.allowed host ↔ (h.allowed = [] ∨ indexBool h.allowed host = true) := by
  have hlook := lookup_iff_mem h.allowed host true hnd
  unfold InAllowedSet indexBool
  rw [← hlook]
  cases List.lookup host h.allowed with
  | none => simp
  | some b => cases b <;> simp

/-- What `goParse` accepts, read back from its result: the raw URL is a scheme
of letters, `://`, the host and the path of the result, and the scheme of the
result is that scheme in lower case. -/
theorem goParse_input (raw : String) (url : URL) (h : goParse raw = .ok url) :
    ∃ scheme : List Char,
      raw.toList = scheme ++ "://".toList ++ url.Host.toList ++ url.Path.toList ∧
      url.Scheme = String.mk (scheme.map Char.toLower) ∧
      url = { Scheme := url.Scheme, Host := url.Host, Path := url.Path } := by
  unfold goParse at h
  split at h
  · rename_i rest hdrop
    split at h
    · simp only [Except.ok.injEq] at h
      subst h
      refine ⟨raw.toList.takeWhile Char.isAlpha, ?_, rfl, rfl⟩
      have h1 := List.takeWhile_append_dropWhile Char.isAlpha raw.toList
      have h2 := List.takeWhile_append_dropWhile goHostChar rest
      rw [hdrop] at h1
      show raw.toList = List.takeWhile Char.isAlpha raw.toList ++ [':', '/', '/'] ++
        List.takeWhile goHostChar rest ++ List.dropWhile goHostChar rest
      rw [List.append_assoc, List.append_assoc, h2]
      exact h1.symm
    · cases h
  · cases h

/-- C13 as stated fails on its last part. The raw URL `HTTPS://whistlerapp.org/a`
parses, its host is no secret alias and is allowed, and the URL returned is
`https://whistlerapp.org/a`: `url.Parse` lowercases the scheme and
`(*URL).String` writes the parsed URL back, so the result is not the input
with only the host translated. -/
theorem GetWhistlerURL_rewrites_input :
    goNetURL.Parse "HTTPS://whistlerapp.org/a" =
      .ok { Scheme := "https", Host := "whistlerapp.org", Path := "/a" } ∧
    SecretTranslation hosts.secrets "whistlerapp.org" "whistlerapp.org" ∧
    InAllowedSet hosts.allowed "whistlerapp.org" ∧
    GetWhistlerURL goNetURL hosts "HTTPS://whistlerapp.org/a" =
      ("https://whistlerapp.org/a", none) ∧
    (GetWhistlerURL goNetURL hosts "HTTPS://whistlerapp.org/a").1 ≠
      "HTTPS://whistlerapp.org/a" := by
  refine ⟨rfl, Or.inr ⟨?_, rfl⟩, Or.inr (by decide), by decide, by decide⟩
  intro target hmem
  exact absurd hmem (by simp [hosts])

/-- C13 (amended). For maps that hold each key once: `GetWhistlerURL` returns
no error exactly when the raw URL parses and the host of the parsed URL, with
a secret alias replaced by the non-empty host that `secrets` holds for it, is
an entry of `allowed` with value `true`, or `allowed` is empty. The string
then returned is what `(*URL).String` writes for the parsed URL with only its
host replaced by that translation; when an error is returned the string is
empty. -/
theorem GetWhistlerURL_spec (N : NetURL) (h : Hosts) (rawurl : String)
    (hwf : h.wellFormed) :
    ((GetWhistlerURL N h rawurl).2 = none ↔
      ∃ url translated, N.Parse rawurl = .ok url ∧
        SecretTranslation h.secrets url.Host translated ∧
        InAllowedSet h.allowed translated) ∧
    (∀ url translated, N.Parse rawurl = .ok url →
      SecretTranslation h.secrets url.Host translated →
      (GetWhistlerURL N h rawurl).2 = none →
      (GetWhistlerURL N h rawurl).1 = N.URLString { url with Host := translated }) ∧
    ((GetWhistlerURL N h rawurl).2 ≠ none → (GetWhistlerURL N h rawurl).1 = "") := by
  obtain ⟨h1, h2, _, h4⟩ := GetWhistlerURL_by_lookup N h rawurl
  refine ⟨?_, ?_, h4⟩
  · rw [h1]
    constructor
    · rintro ⟨url, hp, hal⟩
      exact ⟨url, (translateHost h url).Host, hp,
        (secretTranslation_iff h url _ hwf.1).mpr rfl,
        (inAllowedSet_iff h _ hwf.2).mpr hal⟩
    · rintro ⟨url, translated, hp, htr, hal⟩
      have ht := (secretTranslation_iff h url translated hwf.1).mp htr
      subst ht
      exact ⟨url, hp, (inAllowedSet_iff h _ hwf.2).mp hal⟩
  · intro url translated hp htr herr
    have ht := (secretTranslation_iff h url translated hwf.1).mp htr
    rw [h2 url hp herr, ht]
    exact congrArg N.URLString (translateHost_rest h url)

/-- Witness of C13 (amended). With `allowed` emptied, the alias `secret` is
translated: `https://secret/a` comes back as `https://secret.whistlerapp.org/a`.
With the maps of the source the translated host is not allowed: an error and
the empty string. -/
theorem GetWhistlerURL_spec_witness :
    (hosts.wellFormed ∧ Hosts.wellFormed { hosts with allowed := [] } ∧
     goNetURL.Parse "https://secret/a" = .ok { Scheme := "https", Host := "secret", Path := "/a" } ∧
     SecretTranslation hosts.secrets "secret" "secret.whistlerapp.org" ∧
     (GetWhistlerURL goNetURL { hosts with allowed := [] } "https://secret/a").2 = none ∧
     (GetWhistlerURL goNetURL hosts "https://secret/a").2 ≠ none) ∧
    (GetWhistlerURL goNetURL { hosts with allowed := [] } "https://secret/a").1 =
      "https://secret.whistlerapp.org/a" ∧
    (GetWhistlerURL goNetURL hosts "https://secret/a").1 = "" :=
  ⟨⟨by decide, by decide, rfl, Or.inl ⟨_, by decide, by decide, rfl⟩, by decide, by decide⟩,
    (GetWhistlerURL_spec goNetURL { hosts with allowed := [] } "https://secret/a"
      (by decide)).2.1 { Scheme := "https", Host := "secret", Path := "/a" }
      "secret.whistlerapp.org" rfl (Or.inl ⟨_, by decide, by decide, rfl⟩) (by decide),
    (GetWhistlerURL_spec goNetURL hosts "https://secret/a" (by decide)).2.2 (by decide)⟩

/-! ## C14: the two file validators agree -/

theorem isEmpty_mk_cons (c : Char) (cs : List Char) : (String.mk (c :: cs)).isEmpty = false := by
  have hpos := Char.utf8Size_pos c
  simp only [String.isEmpty, String.endPos, String.utf8ByteSize_mk, String.utf8Len_cons,
    beq_eq_false_iff_ne, ne_eq, String.Pos.ext_iff]
  show ¬ (String.utf8Len cs + c.utf8Size = 0)
  omega

theorem splitDot_ne_nil (cs : List Char) : splitDot cs ≠ [] := by
  cases cs with
  | nil => simp [splitDot]
  | cons c rest =>
    simp only [splitDot]
    split
    · simp
    · split <;> simp

theorem splitDot_one (cs : List Char) :
    ∀ p, splitDot cs = [p] → cs = p ∧ '.' ∉ p := by
  induction cs with
  | nil =>
    intro p h
    simp only [splitDot, List.cons.injEq, and_true] at h
    subst h
    exact ⟨rfl, List.not_mem_nil _⟩
  | cons c rest ih =>
    intro p h
    simp only [splitDot] at h
    split at h
    · simp only [List.cons.injEq] at h
      exact absurd h.2 (splitDot_ne_nil rest)
    · rename_i hc
      split at h
      · rename_i hnil
        exact absurd hnil (splitDot_ne_nil rest)
      · rename_i q qs hq
        simp only [List.cons.injEq] at h
        obtain ⟨hp, hqs⟩ := h
        subst hqs
        obtain ⟨h1, h2⟩ := ih q hq
        subst hp
        refine ⟨by rw [h1], ?_⟩
        intro hmem
        rcases List.mem_cons.mp hmem with h3 | h3
        · exact hc h3.symm
        · exact h2 h3

theorem splitDot_two (cs : List Char) :
    ∀ p0 p1, splitDot cs = [p0, p1] → cs = p0 ++ '.' :: p1 ∧ '.' ∉ p1 := by
  induction cs with
  | nil =>
    intro p0 p1 h
    simp [splitDot] at h
  | cons c rest ih =>
    intro p0 p1 h
    simp only [splitDot] at h
    split at h
    · rename_i hc
      simp only [List.cons.injEq] at h
      obtain ⟨hp0, hrest⟩ := h
      obtain ⟨h1, h2⟩ := splitDot_one rest p1 hrest
      subst hp0
      exact ⟨by rw [hc, h1]; rfl, h2⟩
    · split at h
      · simp at h
      · rename_i q qs hq
        simp only [List.cons.injEq] at h
        obtain ⟨hp0, hqs⟩ := h
        subst hqs
        obtain ⟨h1, h2⟩ := ih q p1 hq
        subst hp0
        exact ⟨by rw [h1]; rfl, h2⟩

/-- `path.Ext` finds the last dot when no slash and no dot follows it. -/
theorem pathExtAux_dot (r : List Char) :
    ∀ (acc rest : List Char), (∀ c ∈ r, c ≠ '/' ∧ c ≠ '.') →
      pathExtAux (r ++ '.' :: rest) acc = '.' :: (r.reverse ++ acc) := by
  induction r with
  | nil => intro acc rest _; simp [pathExtAux]
  | cons c r' ih =>
    intro acc rest h
    have hc := h c (List.mem_cons_self _ _)
    have hrec := ih (c :: acc) rest (fun x hx => h x (List.mem_cons_of_mem _ hx))
    simp only [List.cons_append, pathExtAux, hc.1, hc.2, if_false, List.append_eq]
    rw [hrec]
    simp

theorem fileExts_chars (lowerRune : Char → Char) (p : List Char)
    (h : fileExts (ToLower lowerRune (String.mk p)) = true) : p ≠ [] ∧ '/' ∉ p := by
  have hslash : ∀ q : List Char, '/' ∈ q →
      '/' ∈ q.map (fun c => if c.val < 128 then c.toLower else lowerRune c) := by
    intro q hq
    refine List.mem_map.mpr ⟨'/', hq, ?_⟩
    rw [if_pos (by decide)]
    decide
  unfold fileExts ToLower at h
  simp only [Bool.or_eq_true, decide_eq_true_eq] at h
  constructor
  · rintro rfl
    simp only [String.toList, List.map_nil] at h
    revert h
    decide
  · intro hmem
    have hm := hslash p hmem
    have hdata : ∀ t : String,
        String.mk (p.map (fun c => if c.val < 128 then c.toLower else lowerRune c)) = t →
        '/' ∈ t.toList := by
      intro t ht
      rw [← ht]
      exact hm
    rcases h with (((h | h) | h) | h) | h
    · exact absurd (hdata _ h) (by decide)
    · exact absurd (hdata _ h) (by decide)
    · exact absurd (hdata _ h) (by decide)
    · exact absurd (hdata _ h) (by decide)
    · exact absurd (hdata _ h) (by decide)


theorem whistlerfileext_dot (lowerRune : Char → Char) (p : List Char) (hp : p ≠ [])
    (h : fileExts (ToLower lowerRune (String.mk p)) = true) :
    whistlerfileext lowerRune (String.mk ('.' :: p)) = true := by
  have hsize : ¬ (String.mk ('.' :: p)).utf8ByteSize < 2 := by
    cases p with
    | nil => exact absurd rfl hp
    | cons c cs =>
      have hpos := Char.utf8Size_pos c
      have hdot := Char.utf8Size_pos '.'
      simp only [String.utf8ByteSize_mk, String.utf8Len_cons]
      omega
  have hslice : sliceFrom1 (String.mk ('.' :: p)) = some (String.mk p) := by
    unfold sliceFrom1
    show (if ('.' : Char).utf8Size = 1 then some (String.mk p) else none) = _
    rw [if_pos (by decide)]
  unfold whistlerfileext IsNull
  rw [isEmpty_mk_cons, hslice]
  simp only [Bool.false_eq_true, if_false, hsize]
  exact h

/-- C14. Every non-empty string that `whistlerfile` accepts is a name that
`IsUUID` accepts, one dot, and an extension whose lowercase form is a key of
`fileExts`; `path.Ext` of the string is the dot followed by that extension,
and `whistlerfileext` accepts it. -/
theorem whistlerfile_ext_agree (V : Validators) (lowerRune : Char → Char) (s : String)
    (hne : IsNull s = false) (h : whistlerfile V lowerRune s = true) :
    ∃ name ext : String, s = name ++ "." ++ ext ∧ V.IsUUID name = true ∧
      fileExts (ToLower lowerRune ext) = true ∧ pathExt s = "." ++ ext ∧
      whistlerfileext lowerRune (pathExt s) = true := by
  unfold whistlerfile at h
  rw [hne] at h
  simp only [Bool.false_eq_true, if_false] at h
  split at h
  · rename_i p0 p1 hsplit
    simp only [Bool.and_eq_true] at h
    obtain ⟨huuid, hext⟩ := h
    obtain ⟨hlist, hnodot⟩ := splitDot_two s.toList p0 p1 hsplit
    obtain ⟨hp1, hnoslash⟩ := fileExts_chars lowerRune p1 hext
    have hpath : pathExt s = String.mk ('.' :: p1) := by
      unfold pathExt
      rw [hlist, List.reverse_append, List.reverse_cons, List.append_assoc]
      rw [show [('.' : Char)] ++ p0.reverse = '.' :: p0.reverse from rfl]
      rw [pathExtAux_dot p1.reverse [] p0.reverse]
      · simp
      · intro c hc
        rw [List.mem_reverse] at hc
        exact ⟨fun e => hnoslash (e ▸ hc), fun e => hnodot (e ▸ hc)⟩
    refine ⟨String.mk p0, String.mk p1, ?_, huuid, hext, ?_, ?_⟩
    · apply String.ext
      show s.toList = _
      rw [hlist]
      simp [String.data_append]
    · rw [hpath]
      rfl
    · rw [hpath]
      exact whistlerfileext_dot lowerRune p1 hp1 hext
  · cases h

/-- Witness of C14: an upper-case extension. -/
theorem whistlerfile_ext_agree_witness :
    (IsNull "6ba7b810-9dad-11d1-80b4-00c04fd430c8.JPG" = false ∧
     whistlerfile sampleValidators id "6ba7b810-9dad-11d1-80b4-00c04fd430c8.JPG" = true ∧
     pathExt "6ba7b810-9dad-11d1-80b4-00c04fd430c8.JPG" = ".JPG") ∧
    ∃ name ext : String, "6ba7b810-9dad-11d1-80b4-00c04fd430c8.JPG" = name ++ "." ++ ext ∧
      sampleValidators.IsUUID name = true ∧ fileExts (ToLower id ext) = true ∧
      pathExt "6ba7b810-9dad-11d1-80b4-00c04fd430c8.JPG" = "." ++ ext ∧
      whistlerfileext id (pathExt "6ba7b810-9dad-11d1-80b4-00c04fd430c8.JPG") = true :=
  ⟨⟨by decide, by decide, by decide⟩,
    whistlerfile_ext_agree sampleValidators id "6ba7b810-9dad-11d1-80b4-00c04fd430c8.JPG"
      (by decide) (by decide)⟩

end Whistler
